import Mathlib

/-!
Shallow embedding of the SIRF MR acquisition/image container subsystem
(`src/xGadgetron/cGadgetron/gadgetron_data_containers.{h,cpp}`), together
with proofs about k-space sorting, subset organisation, elementwise algebra
preconditions, geometry derivation and coil-sensitivity application.

Machine floating point values are modelled by exact rationals, complex float
values by pairs of rationals; C++ exceptions and out-of-range container
accesses are modelled by the `Except` monad.
-/

/-- Complex float value (ISMRMRD complex_float_t), modelled as a pair of
rationals. -/
structure CFloat where
  re : ℚ
  im : ℚ
deriving DecidableEq, Repr

/-- Complex multiplication, as used by `DataContainer::product`. -/
def CFloat.mul (x y : CFloat) : CFloat :=
  ⟨x.re * y.re - x.im * y.im, x.re * y.im + x.im * y.re⟩

/-- Complex addition. -/
def CFloat.add (x y : CFloat) : CFloat :=
  ⟨x.re + y.re, x.im + y.im⟩

/-- Complex conjugation (std::conj). -/
def CFloat.conj (x : CFloat) : CFloat :=
  ⟨x.re, -x.im⟩

/-- The complex zero. -/
def CFloat.zero : CFloat := ⟨0, 0⟩

/-- Left fold summation of `n` complex values, mirroring an accumulation
loop `for(c = 0; c < n; ++c) acc += f(c)` that starts from zero. -/
def CFloat.sumUp (f : Nat → CFloat) (n : Nat) : CFloat :=
  (List.range n).foldl (fun acc c => acc.add (f c)) CFloat.zero

/-- ISMRMRD acquisition flag bit positions (ismrmrd.h,
enum ISMRMRD_AcquisitionFlags). -/
def ISMRMRD_ACQ_IS_NOISE_MEASUREMENT : Nat := 19

/-- ISMRMRD flag: acquisition is parallel calibration data. -/
def ISMRMRD_ACQ_IS_PARALLEL_CALIBRATION : Nat := 20

/-- ISMRMRD flag: acquisition is parallel calibration and imaging data. -/
def ISMRMRD_ACQ_IS_PARALLEL_CALIBRATION_AND_IMAGING : Nat := 21

/-- ISMRMRD flag: acquisition is reversed. -/
def ISMRMRD_ACQ_IS_REVERSE : Nat := 22

/-- ISMRMRD flag: acquisition is the last in the measurement. -/
def ISMRMRD_ACQ_LAST_IN_MEASUREMENT : Nat := 25

/-- ISMRMRD flag test: `isFlagSet(val)` checks the bit `1 << (val - 1)`
of the 64-bit flag word (ismrmrd.h). The flag word is modelled as a
natural number. -/
def isFlagSet (flags : Nat) (val : Nat) : Bool :=
  flags.testBit (val - 1)

/-- Per-readout counter indices of an ISMRMRD acquisition header
(EncodingCounters: average, slice, contrast, phase, repetition, set,
segment; all uint16). -/
structure EncodingCounters where
  average : Nat
  slice : Nat
  contrast : Nat
  phase : Nat
  repetition : Nat
  set : Nat
  segment : Nat
deriving DecidableEq, Repr

/-- A single ISMRMRD acquisition record: flag word, time stamp, counter
indices, and the complex sample matrix flattened in memory order
(samples fastest, `channels * samples` values), as traversed by
`data_begin() .. data_end()`. -/
structure Acquisition where
  flags : Nat
  acquisition_time_stamp : Nat
  idx : EncodingCounters
  active_channels : Nat
  number_of_samples : Nat
  data : List CFloat
deriving DecidableEq, Repr

/-- The acquisition filter macro TO_BE_IGNORED of
gadgetron_data_containers.h (lines 63-68): ignored when none of
parallel-calibration, parallel-calibration-and-imaging,
last-in-measurement, reverse is set and the numeric flag word is at or
above `1 << (ISMRMRD_ACQ_IS_NOISE_MEASUREMENT - 1)`. -/
def TO_BE_IGNORED (acq : Acquisition) : Bool :=
  !(isFlagSet acq.flags ISMRMRD_ACQ_IS_PARALLEL_CALIBRATION) &&
  !(isFlagSet acq.flags ISMRMRD_ACQ_IS_PARALLEL_CALIBRATION_AND_IMAGING) &&
  !(isFlagSet acq.flags ISMRMRD_ACQ_LAST_IN_MEASUREMENT) &&
  !(isFlagSet acq.flags ISMRMRD_ACQ_IS_REVERSE) &&
  decide (2 ^ (ISMRMRD_ACQ_IS_NOISE_MEASUREMENT - 1) ≤ acq.flags)

/-- ISMRMRD encoding limit (minimum/maximum, both uint16; the center
component is unused by the embedded code). -/
structure Limit where
  minimum : Nat
  maximum : Nat
deriving DecidableEq, Repr

/-- ISMRMRD encoding limits; only the six components read by
`organise_kspace` are modelled, each optional as in the header. -/
structure EncodingLimits where
  average : Option Limit
  slice : Option Limit
  contrast : Option Limit
  phase : Option Limit
  repetition : Option Limit
  set : Option Limit
deriving DecidableEq, Repr

/-- ISMRMRD trajectory type enumeration. -/
inductive TrajectoryType where
  | cartesian
  | epi
  | radial
  | goldenangle
  | spiral
  | other
deriving DecidableEq, Repr

/-- One ISMRMRD encoding section of the header: its encoding limits and
declared trajectory type. -/
structure Encoding where
  encodingLimits : EncodingLimits
  trajectory : TrajectoryType
deriving DecidableEq, Repr

/-- Parsed ISMRMRD header part of AcquisitionsInfo: the list of encoding
sections. -/
structure AcquisitionsInfo where
  encodings : List Encoding
deriving DecidableEq, Repr

/-- Error outcomes of the embedded operations (C++ exceptions and
undefined out-of-range accesses). -/
inductive Err where
  | outOfRange
  | multipleEncodings
  | unsortedOperands
  | emptyContainer
  | notSorted
  | nonEmptyDestination
  | sizeMismatch
  | inconsistentDims
  | multiChannelSource
  | noCoilmapMatch
  | csmDimsMismatch
  | unsupported3D
deriving DecidableEq, Repr

/-- KSpaceSubset::TagType: an integer tuple of length
7 + ISMRMRD_USER_INTS = 15 in the fixed order
average, slice, contrast, phase, repetition, set, segment, user ints. -/
abbrev TagType := List Int

/-- KSpaceSubset: an immutable tag plus the list of logical element
indices assigned to it. -/
structure KSpaceSubset where
  tag : TagType
  idx_set : List Nat
deriving DecidableEq, Repr

/-- KSpaceSubset::get_tag_from_acquisition
(gadgetron_data_containers.cpp, lines 1386-1401): six counters from the
acquisition header, segment forced to 0, user ints forced to 0. -/
def KSpaceSubset.get_tag_from_acquisition (acq : Acquisition) : TagType :=
  [(acq.idx.average : Int), (acq.idx.slice : Int), (acq.idx.contrast : Int),
   (acq.idx.phase : Int), (acq.idx.repetition : Int), (acq.idx.set : Int),
   0] ++ List.replicate 8 0

/-- AcquisitionsVector state: parsed header info `acqs_info_`, the
physical element storage `acqs_`, the permutation index `index_`, the
derived subset list `sorting_` and the `sorted_` flag. -/
structure AcquisitionsVector where
  acqs_info : AcquisitionsInfo
  acqs : List Acquisition
  index_ : List Nat
  sorting_ : List KSpaceSubset
  sorted_ : Bool

/-- number(): the count of stored acquisitions. -/
def AcquisitionsVector.number (c : AcquisitionsVector) : Nat :=
  c.acqs.length

/-- MRAcquisitionData::index(int i) (header lines 659-668): throws when
the index array is nonempty and i is outside it, or i is at or past
number(); otherwise reads the permutation entry, or returns i itself
when the permutation is empty. -/
def AcquisitionsVector.index1 (c : AcquisitionsVector) (i : Nat) :
    Except Err Nat :=
  let ni := c.index_.length
  if (0 < ni ∧ ni ≤ i) ∨ c.number ≤ i then .error .outOfRange
  else if 0 < ni then .ok (c.index_.getD i 0)
  else .ok i

/-- AcquisitionsVector::get_acquisition (header lines 731-742): resolves
the logical position through index(), copies the stored record, and
reports status 0 (here: `false`) exactly when the TO_BE_IGNORED
condition holds for the copied record. A physical slot outside the
storage (undefined behaviour in C++) is modelled as an error. -/
def AcquisitionsVector.get_acquisition (c : AcquisitionsVector) (i : Nat) :
    Except Err (Bool × Acquisition) := do
  let ind ← c.index1 i
  match c.acqs[ind]? with
  | none => .error .outOfRange
  | some acq => .ok (!(TO_BE_IGNORED acq), acq)

/-- get_num_enc_states (gadgetron_data_containers.cpp, lines 1153-1164):
1 when the limit is absent, otherwise maximum - minimum + 1 computed in
int arithmetic. -/
def get_num_enc_states (lim : Option Limit) : Int :=
  match lim with
  | none => 1
  | some l => (l.maximum : Int) - (l.minimum : Int) + 1

/-- The seven per-axis state counts NAvg, NSlice, NCont, NPhase, NRep,
NSet, NSegm used by organise_kspace, with the segment count fixed at 1. -/
def encStateCounts (el : EncodingLimits) : List Int :=
  [get_num_enc_states el.average, get_num_enc_states el.slice,
   get_num_enc_states el.contrast, get_num_enc_states el.phase,
   get_num_enc_states el.repetition, get_num_enc_states el.set, 1]

/-- The row-major flattened subset position of a tag
(gadgetron_data_containers.cpp, line 1210):
`(((((tag0*NSlice + tag1)*NCont + tag2)*NPhase + tag3)*NRep + tag4)*NSet
+ tag5)*NSegm + tag6`. -/
def flat_index (el : EncodingLimits) (tag : TagType) : Int :=
  let n := encStateCounts el
  (((((tag.getD 0 0 * n.getD 1 0 + tag.getD 1 0) * n.getD 2 0
    + tag.getD 2 0) * n.getD 3 0 + tag.getD 3 0) * n.getD 4 0
    + tag.getD 4 0) * n.getD 5 0 + tag.getD 5 0) * n.getD 6 0
    + tag.getD 6 0

/-- The list of candidate tags produced by the seven nested loops of
organise_kspace (lines 1188-1202), in loop (row-major) order; segment
and user ints are 0. -/
def cartesianTags (el : EncodingLimits) : List TagType :=
  (List.range (get_num_enc_states el.average).toNat).flatMap fun ia =>
  (List.range (get_num_enc_states el.slice).toNat).flatMap fun isl =>
  (List.range (get_num_enc_states el.contrast).toNat).flatMap fun ic =>
  (List.range (get_num_enc_states el.phase).toNat).flatMap fun ip =>
  (List.range (get_num_enc_states el.repetition).toNat).flatMap fun ir =>
  (List.range (get_num_enc_states el.set).toNat).flatMap fun iset =>
  (List.range 1).map fun iseg =>
    [(ia : Int), (isl : Int), (ic : Int), (ip : Int), (ir : Int),
     (iset : Int), (iseg : Int)] ++ List.replicate 8 0

/-- One empty candidate subset per tag of the Cartesian product of the
encoding-limit extents. -/
def candidate_subsets (el : EncodingLimits) : List KSpaceSubset :=
  (cartesianTags el).map fun t => { tag := t, idx_set := [] }

/-- Functional update appending index `i` to the idx set of the subset at
position `j` (the effect of `sorting_.at(j).add_idx_to_set(i)`). -/
def appendIdxAt (b : List KSpaceSubset) (j : Nat) (i : Nat) :
    List KSpaceSubset :=
  match b, j with
  | [], _ => []
  | s :: rest, 0 => { s with idx_set := s.idx_set ++ [i] } :: rest
  | s :: rest, j + 1 => s :: appendIdxAt rest j i

/-- The row-major flat subset position of the acquisition at logical
position i of the container, when that position is readable. -/
def logicalFlatIdx (c : AcquisitionsVector) (el : EncodingLimits)
    (i : Nat) : Option Int :=
  match c.get_acquisition i with
  | .ok (_, acq) => some (flat_index el (KSpaceSubset.get_tag_from_acquisition acq))
  | .error _ => none

/-- The assignment loop of organise_kspace (lines 1204-1212): for each
logical position, read the acquisition (status ignored), compute the
row-major flat position of its tag, and append the position to the
subset there; `.at` on an out-of-range position throws. -/
def organiseLoop (c : AcquisitionsVector) (el : EncodingLimits)
    (b : List KSpaceSubset) : List Nat → Except Err (List KSpaceSubset)
  | [] => .ok b
  | i :: rest => do
    let (_, acq) ← c.get_acquisition i
    let k := flat_index el (KSpaceSubset.get_tag_from_acquisition acq)
    if 0 ≤ k ∧ k.toNat < b.length then
      organiseLoop c el (appendIdxAt b k.toNat i) rest
    else .error .outOfRange

/-- MRAcquisitionData::organise_kspace (lines 1166-1216): rejects headers
with more than one encoding, builds one candidate subset per tag of the
Cartesian product of encoding-limit extents, assigns every logical
element by row-major flat tag position, and drops subsets whose index
set stayed empty. Reading `encoding[0]` of a header without encodings is
undefined in C++ and modelled as an error. -/
def AcquisitionsVector.organise_kspace (c : AcquisitionsVector) :
    Except Err (List KSpaceSubset) :=
  if 1 < c.acqs_info.encodings.length then .error .multipleEncodings
  else
    match c.acqs_info.encodings.head? with
    | none => .error .outOfRange
    | some e => do
      let el := e.encodingLimits
      let assigned ← organiseLoop c el (candidate_subsets el)
        (List.range c.number)
      .ok (assigned.filter fun s => !s.idx_set.isEmpty)

/-- std::vector resize on the permutation index: keep a prefix, pad new
slots with value-initialised zeros. -/
def resizeZero (l : List Nat) (n : Nat) : List Nat :=
  l.take n ++ List.replicate (n - l.length) 0

/-- Stable insertion of x into a list already stably sorted by the strict
key comparison: x goes after every element whose key is strictly
smaller, and before the first element whose key is not. -/
def stableInsert (lt : Nat → Nat → Bool) (x : Nat) : List Nat → List Nat
  | [] => [x]
  | y :: ys => if lt y x then y :: stableInsert lt x ys else x :: y :: ys

/-- Stable sort by a strict comparator; produces the unique stably
ascending rearrangement, the output contract of std::stable_sort. -/
def stableSort (lt : Nat → Nat → Bool) : List Nat → List Nat
  | [] => []
  | x :: xs => stableInsert lt x (stableSort lt xs)

/-- The time-stamp gathering loop of sort_by_time (lines 1118-1124):
for every logical position i (read through the current permutation), the
acquisition time stamp; the ignored-status result of get_acquisition is
discarded. -/
def timestampLoop (c : AcquisitionsVector) : List Nat → Except Err (List Nat)
  | [] => .ok []
  | i :: rest => do
    let (_, acq) ← c.get_acquisition i
    let restTs ← timestampLoop c rest
    .ok (acq.acquisition_time_stamp :: restTs)

/-- MRAcquisitionData::sort_by_time (lines 1108-1134): resize the
permutation index to N (padding with zeros), gather the time stamp of
every logical position through that permutation, overwrite the
permutation with iota stably sorted by those keys, recompute the subsets
via organise_kspace, and set the sorted flag. An empty container only
warns, runs organise_kspace and sets the flag. -/
def AcquisitionsVector.sort_by_time (c : AcquisitionsVector) :
    Except Err AcquisitionsVector := do
  let N := c.number
  let c1 : AcquisitionsVector := { c with index_ := resizeZero c.index_ N }
  if N = 0 then do
    let s ← c1.organise_kspace
    .ok { c1 with sorting_ := s, sorted_ := true }
  else do
    let a ← timestampLoop c1 (List.range N)
    let perm := stableSort (fun i j => a.getD i 0 < a.getD j 0) (List.range N)
    let c2 : AcquisitionsVector := { c1 with index_ := perm }
    let s ← c2.organise_kspace
    .ok { c2 with sorting_ := s, sorted_ := true }

/-- MRAcquisitionData::sort (lines 1102-1106): delegates to
sort_by_time. -/
def AcquisitionsVector.sort (c : AcquisitionsVector) :
    Except Err AcquisitionsVector :=
  c.sort_by_time

/-- DataContainer::is_empty on acquisition data. Modelled from the spec:
the DataContainer base class lives in sirf/common (not under the
embedded sources); a container is empty when it holds no elements. -/
def AcquisitionsVector.is_empty (c : AcquisitionsVector) : Bool :=
  c.number = 0

/-- MRAcquisitionData::get_kspace_order (lines 1136-1151): error on an
empty container, error when no subset list was computed yet, otherwise
the index sets of the nonempty subsets. -/
def AcquisitionsVector.get_kspace_order (c : AcquisitionsVector) :
    Except Err (List (List Nat)) :=
  if c.is_empty then .error .emptyContainer
  else if c.sorting_.length = 0 then .error .notSorted
  else .ok ((c.sorting_.filter fun s => !s.idx_set.isEmpty).map
    fun s => s.idx_set)

/-- The per-acquisition elementwise kernel
MRAcquisitionData::binary_op(acq_x, acq_y, f) (lines 378-388): walk the
two flat sample buffers in lock step until either ends, storing
`f x y` into y. -/
def acqBinaryOp (f : CFloat → CFloat → CFloat) (ax ay : Acquisition) :
    Acquisition :=
  { ay with data := List.zipWith f ax.data ay.data
      ++ ay.data.drop ax.data.length }

/-- append_acquisition: deep-copy the record to the physical end. -/
def AcquisitionsVector.append_acquisition (c : AcquisitionsVector)
    (a : Acquisition) : AcquisitionsVector :=
  { c with acqs := c.acqs ++ [a] }

/-- AcquisitionsVector::set_acquisition (header lines 743-747): resolve
the logical position through index() and overwrite the stored record. -/
def AcquisitionsVector.set_acquisition (c : AcquisitionsVector) (i : Nat)
    (a : Acquisition) : Except Err AcquisitionsVector := do
  let ind ← c.index1 i
  if ind < c.acqs.length then .ok { c with acqs := c.acqs.set ind a }
  else .error .outOfRange

/-- The merge loop of MRAcquisitionData::binary_op (lines 940-966):
skip ignored operand or destination positions, apply the kernel, append
to an initially empty receiver or overwrite position k otherwise. -/
def binaryLoop (x y : AcquisitionsVector) (f : CFloat → CFloat → CFloat)
    (isempty : Bool) (c : AcquisitionsVector) (ix iy k : Nat) :
    Except Err AcquisitionsVector :=
  if hx : ix < x.number ∧ iy < y.number then
    match hax : x.get_acquisition ix with
    | .error e => .error e
    | .ok (false, _) => binaryLoop x y f isempty c (ix + 1) iy k
    | .ok (true, ax) =>
      match hay : y.get_acquisition iy with
      | .error e => .error e
      | .ok (false, _) => binaryLoop x y f isempty c ix (iy + 1) k
      | .ok (true, ay) =>
        if isempty then
          binaryLoop x y f isempty (c.append_acquisition (acqBinaryOp f ax ay))
            (ix + 1) (iy + 1) (k + 1)
        else
          match hacq : c.get_acquisition k with
          | .error e => .error e
          | .ok (false, _) => binaryLoop x y f isempty c ix iy (k + 1)
          | .ok (true, _) =>
            match hset : c.set_acquisition k (acqBinaryOp f ax ay) with
            | .error e => .error e
            | .ok c1 => binaryLoop x y f isempty c1 (ix + 1) (iy + 1) (k + 1)
  else .ok c
  termination_by (x.number - ix) + (y.number - iy) + (c.number + 1 - k)
  decreasing_by
  · simp only [AcquisitionsVector.number] at *; omega
  · simp only [AcquisitionsVector.number] at *; omega
  · simp only [AcquisitionsVector.append_acquisition,
      AcquisitionsVector.number, List.length_append, List.length_cons,
      List.length_nil] at *
    omega
  · have hk : k < c.number := by
      rcases hidx : c.index1 k with e | ind
      · rw [AcquisitionsVector.get_acquisition] at hacq
        rw [hidx] at hacq
        exact absurd hacq (by simp [Bind.bind, Except.bind])
      · unfold AcquisitionsVector.index1 at hidx
        by_cases hcond : (0 < c.index_.length ∧ c.index_.length ≤ k)
          ∨ c.number ≤ k
        · simp [hcond] at hidx
        · omega
    simp only [AcquisitionsVector.number] at *; omega
  · have hlen : c1.number = c.number := by
      rw [AcquisitionsVector.set_acquisition] at hset
      rcases hidx : c.index1 k with e | ind
      · rw [hidx] at hset
        exact absurd hset (by simp [Bind.bind, Except.bind])
      · rw [hidx] at hset
        by_cases hlt : ind < c.acqs.length
        · simp only [Bind.bind, Except.bind, hlt, if_true] at hset
          cases hset
          simp [AcquisitionsVector.number]
        · simp only [Bind.bind, Except.bind, hlt, if_false] at hset
          cases hset
    simp only [AcquisitionsVector.number] at *; omega

/-- MRAcquisitionData::binary_op (lines 924-969): a hard error when
either operand is not sorted; otherwise run the merge loop and finish by
setting the sorted flag and recomputing the subsets. -/
def AcquisitionsVector.binary_op (c x y : AcquisitionsVector)
    (f : CFloat → CFloat → CFloat) : Except Err AcquisitionsVector := do
  if ¬(x.sorted_ ∧ y.sorted_) then .error .unsortedOperands
  else do
    let c1 ← binaryLoop x y f (decide (c.number < 1)) c 0 0 0
    let s ← c1.organise_kspace
    .ok { c1 with sorting_ := s, sorted_ := true }

/-- DataContainer::product. Modelled from the spec: the elementwise
product template of the DataContainer base class (sirf/common), complex
multiplication. -/
def productCF (x y : CFloat) : CFloat := x.mul y

/-- MRAcquisitionData::multiply(x, y) (lines 809-815): binary_op with
the elementwise product kernel. -/
def AcquisitionsVector.multiply (c x y : AcquisitionsVector) :
    Except Err AcquisitionsVector :=
  c.binary_op x y productCF

/-- The scan loop of MRAcquisitionData::get_flagged_acquisitions_index
(lines 1226-1238): for every logical position (ignored status
discarded), keep the position when any of the given flags is set on the
record. -/
def flaggedLoop (c : AcquisitionsVector) (flags : List Nat) :
    List Nat → Except Err (List Nat)
  | [] => .ok []
  | i :: rest => do
    let (_, acq) ← c.get_acquisition i
    let restIdx ← flaggedLoop c flags rest
    if flags.any fun f => isFlagSet acq.flags f then .ok (i :: restIdx)
    else .ok restIdx

/-- MRAcquisitionData::get_flagged_acquisitions_index (lines 1219-1241):
empty flag list gives an empty result, otherwise the scan loop over all
logical positions. -/
def AcquisitionsVector.get_flagged_acquisitions_index
    (c : AcquisitionsVector) (flags : List Nat) : Except Err (List Nat) :=
  if flags.isEmpty then .ok []
  else flaggedLoop c flags (List.range c.number)

/-- Reading the records at the given logical positions in order (the
get_acquisition/append loops of clone_impl and get_subset; the
ignored status is discarded in both). -/
def pickLoop (c : AcquisitionsVector) : List Nat → Except Err (List Acquisition)
  | [] => .ok []
  | i :: rest => do
    let (_, acq) ← c.get_acquisition i
    let restAcqs ← pickLoop c rest
    .ok (acq :: restAcqs)

/-- AcquisitionsVector::clone_impl (lines 1288-1302): a fresh container
with the same header info, the records of every logical position
appended in order, the sorted flag copied, and the subsets recomputed
when the source was sorted. -/
def AcquisitionsVector.clone (c : AcquisitionsVector) :
    Except Err AcquisitionsVector := do
  let l ← pickLoop c (List.range c.number)
  let base : AcquisitionsVector :=
    { acqs_info := c.acqs_info, acqs := l, index_ := [], sorting_ := [],
      sorted_ := c.sorted_ }
  if c.sorted_ then do
    let s ← base.organise_kspace
    .ok { base with sorting_ := s }
  else .ok base

/-- AcquisitionsVector::empty (lines 1304-1309): clears the element
storage and the permutation index, leaving header info, subset list and
sorted flag untouched. -/
def AcquisitionsVector.empty (c : AcquisitionsVector) : AcquisitionsVector :=
  { c with acqs := [], index_ := [] }

/-- MRAcquisitionData::get_subset (lines 1260-1273): copy the header
info onto the destination, reject a nonempty destination, then append
the records at the given logical positions of the source. -/
def AcquisitionsVector.get_subset (c : AcquisitionsVector)
    (dest : AcquisitionsVector) (subset_idx : List Nat) :
    Except Err AcquisitionsVector := do
  let dest1 : AcquisitionsVector := { dest with acqs_info := c.acqs_info }
  if 0 < dest1.number then .error .nonEmptyDestination
  else do
    let l ← pickLoop c subset_idx
    .ok { dest1 with acqs := dest1.acqs ++ l }

/-- MRAcquisitionData::get_trajectory_type (lines 1066-1077): the
trajectory of the first encoding section (warning only when there are
several); reading encoding[0] of a header without encodings is
undefined in C++ and modelled as an error. -/
def AcquisitionsVector.get_trajectory_type (c : AcquisitionsVector) :
    Except Err TrajectoryType :=
  match c.acqs_info.encodings.head? with
  | none => .error .outOfRange
  | some e => .ok e.trajectory

/-- The two calibration flags used by
CoilImagesVector::extract_calibration_data. -/
def calibration_flags : List Nat :=
  [ISMRMRD_ACQ_IS_PARALLEL_CALIBRATION,
   ISMRMRD_ACQ_IS_PARALLEL_CALIBRATION_AND_IMAGING]

/-- CoilImagesVector::extract_calibration_data (lines 2528-2550): clone
the input; on Cartesian data find the calibration-flagged positions,
return the clone unchanged when there are none, otherwise empty the
clone, fill it with the flagged subset and sort it by time; non-Cartesian
data returns the clone unchanged. -/
def extract_calibration_data (ad : AcquisitionsVector) :
    Except Err AcquisitionsVector := do
  let cl ← ad.clone
  let tt ← ad.get_trajectory_type
  if tt = .cartesian then do
    let idxs ← ad.get_flagged_acquisitions_index calibration_flags
    if idxs.length < 1 then .ok cl
    else do
      let sub ← ad.get_subset cl.empty idxs
      sub.sort_by_time
  else .ok cl

/-- A 3-vector of float values (modelled as rationals). -/
structure Vec3 where
  x : ℚ
  y : ℚ
  z : ℚ
deriving DecidableEq, Repr

/-- ISMRMRD image header fields used by the embedded image code:
direction vectors, position, field of view, matrix size, channel count
and the per-image counter indices read by get_tag_from_img. -/
structure ImageHeader where
  read_dir : Vec3
  phase_dir : Vec3
  slice_dir : Vec3
  position : Vec3
  field_of_view : Vec3
  matrix_size : Nat × Nat × Nat
  channels : Nat
  average : Nat
  slice : Nat
  contrast : Nat
  phase : Nat
  repetition : Nat
  set : Nat
deriving DecidableEq, Repr

/-- An ISMRMRD complex-float image (CFImage): its header and the flat
complex pixel buffer addressed x fastest, then y, z, channel
(`nx + Nx*(ny + Ny*(nz + Nz*nc))`), as by getDataPtr / operator(). All
images of the embedded containers hold complex float pixels, so the
ISMRMRD_CXFLOAT type tag always matches and is not modelled. -/
structure CFImage where
  head : ImageHeader
  data : Nat → CFloat

/-- getMatrixSizeX. -/
def CFImage.nx (img : CFImage) : Nat := img.head.matrix_size.1

/-- getMatrixSizeY. -/
def CFImage.ny (img : CFImage) : Nat := img.head.matrix_size.2.1

/-- getMatrixSizeZ. -/
def CFImage.nz (img : CFImage) : Nat := img.head.matrix_size.2.2

/-- getNumberOfChannels. -/
def CFImage.nc (img : CFImage) : Nat := img.head.channels

/-- operator()(nx, ny, nz, nc): read the pixel buffer with the strides of
the image itself. -/
def CFImage.at4 (img : CFImage) (x y z c : Nat) : CFloat :=
  img.data (x + img.nx * (y + img.ny * (z + img.nz * c)))

/-- KSpaceSubset::get_tag_from_img (lines 1367-1383): six counters from
the image header, segment and user ints forced to 0. -/
def KSpaceSubset.get_tag_from_img (img : CFImage) : TagType :=
  [(img.head.average : Int), (img.head.slice : Int),
   (img.head.contrast : Int), (img.head.phase : Int),
   (img.head.repetition : Int), (img.head.set : Int),
   0] ++ List.replicate 8 0

/-- GadgetronImagesVector state: the image wrappers in physical order
(after GadgetronImagesVector::sort the physical order is the logical
order and the index is cleared), and the sorted flag. -/
structure GadgetronImagesVector where
  images : List CFImage
  sorted_ : Bool

/-- number() of an image container. -/
def GadgetronImagesVector.number (c : GadgetronImagesVector) : Nat :=
  c.images.length

/-- ISMRMRDImageData::get_image_dimensions (header lines 852-858) for a
valid image number: the x/y/z matrix sizes and the channel count as
ints. An image number at or past number() writes zeros and then reads
out of range (undefined in C++); the zero dimensions are kept as the
model value. -/
def GadgetronImagesVector.get_image_dimensions (c : GadgetronImagesVector)
    (i : Nat) : List Int :=
  match c.images[i]? with
  | some img => [(img.nx : Int), (img.ny : Int), (img.nz : Int), (img.nc : Int)]
  | none => [0, 0, 0, 0]

/-- ISMRMRDImageData::check_dimension_consistency (header lines
859-873), translated literally: the dimensions of image 0 are fetched
first, and every loop iteration fetches the dimensions of image 0 again
(not of image i) and compares. -/
def GadgetronImagesVector.check_dimension_consistency
    (c : GadgetronImagesVector) : Bool :=
  let first_img_dims := c.get_image_dimensions 0
  (List.range (c.number - 1)).foldl
    (fun dims_match _ => dims_match && (first_img_dims == c.get_image_dimensions 0))
    true

/-- is_unit_vector (lines 2167-2170): the squared norm is within 1e-4 of
one. -/
def is_unit_vector (v : Vec3) : Bool :=
  |v.x * v.x + v.y * v.y + v.z * v.z - 1| < 1 / 10000

/-- are_vectors_equal (lines 2172-2178): no component differs by more
than 1e-4. -/
def are_vectors_equal (v w : Vec3) : Bool :=
  |v.x - w.x| ≤ 1 / 10000 && |v.y - w.y| ≤ 1 / 10000 &&
  |v.z - w.z| ≤ 1 / 10000

/-- get_projection_of_position_in_slice (lines 2332-2337). -/
def get_projection_of_position_in_slice (h : ImageHeader) : ℚ :=
  h.position.x * h.slice_dir.x + h.position.y * h.slice_dir.y +
  h.position.z * h.slice_dir.z

/-- get_slice_spacing (lines 2339-2342). -/
def get_slice_spacing (h1 h2 : ImageHeader) : ℚ :=
  |get_projection_of_position_in_slice h1 -
    get_projection_of_position_in_slice h2|

/-- The combined sort key of GadgetronImagesVector::sort (lines
1722-1757): negative projection of the position onto the slice
direction, then contrast, then repetition. -/
def imgSortKey (img : CFImage) : ℚ × Nat × Nat :=
  (-(get_projection_of_position_in_slice img.head),
   img.head.contrast, img.head.repetition)

/-- Strict lexicographic comparison of image sort keys. -/
def imgKeyLt (a b : CFImage) : Bool :=
  let ka := imgSortKey a
  let kb := imgSortKey b
  decide (ka.1 < kb.1) ||
  (decide (ka.1 = kb.1) && (decide (ka.2.1 < kb.2.1) ||
    (decide (ka.2.1 = kb.2.1) && decide (ka.2.2 < kb.2.2))))

/-- Stable insertion step for the image sort. -/
def imgInsert (x : CFImage) : List CFImage → List CFImage
  | [] => [x]
  | y :: ys => if imgKeyLt y x then y :: imgInsert x ys else x :: y :: ys

/-- Modelled from the spec: GadgetronImagesVector::sort delegates the
rearrangement to Multisort::sort of sirf/common/multisort.h, which is
not among the embedded sources; the containers are sorted by a single
combined-tuple stable sort on (negative slice-direction projection,
contrast, repetition), realised here as a stable insertion sort. -/
def imgSort : List CFImage → List CFImage
  | [] => []
  | x :: xs => imgInsert x (imgSort xs)

/-- The image sequence on which set_up_geom_info operates: the stored
order when the container is sorted, otherwise the result of the sort it
performs first. -/
def sortedImages (c : GadgetronImagesVector) : List CFImage :=
  if c.sorted_ then c.images else imgSort c.images

/-- The derived voxel grid descriptor VoxelisedGeometricalInfo3D:
offset, spacing, size and the direction matrix stored as rows
(direction[axis] = (-read_dir[axis], -phase_dir[axis], -slice_dir[axis])). -/
structure VoxelisedGeometricalInfo3D where
  offset : Vec3
  spacing : Vec3
  size : Nat × Nat × Nat
  direction : Vec3 × Vec3 × Vec3
deriving DecidableEq, Repr

/-- The constancy-check loop of set_up_geom_info (lines 2380-2393): walk
the images after the first, keep the running maximum slice index, and
abort (`none`) at the first image whose read/phase/slice directions are
not all within tolerance of the first image. -/
def dirCheckLoop (h1 : ImageHeader) (ns : Nat) :
    List CFImage → Option Nat
  | [] => some ns
  | im :: rest =>
    let ns1 := if ns < im.head.slice then im.head.slice else ns
    if are_vectors_equal h1.read_dir im.head.read_dir &&
       are_vectors_equal h1.phase_dir im.head.phase_dir &&
       are_vectors_equal h1.slice_dir im.head.slice_dir then
      dirCheckLoop h1 ns1 rest
    else none

/-- The adjacent slice-spacing check loop of set_up_geom_info (lines
2439-2450): true when every adjacent pair of images has slice spacing
within 1e-4 of the reference spacing. -/
def spacingCheckLoop (sp : ℚ) : List CFImage → Bool
  | [] => true
  | [_] => true
  | a :: b :: rest =>
    if 1 / 10000 < |sp - get_slice_spacing a.head b.head| then false
    else spacingCheckLoop sp (b :: rest)

/-- The direction matrix and offset computed at the end of
set_up_geom_info (lines 2458-2476): direction row axis is
(-read_dir[axis], -phase_dir[axis], -slice_dir[axis]), and the offset is
the first image position minus the half field of view projected along
each direction column. -/
def mkGeomInfo (ih1 : ImageHeader) (spacing : Vec3) (size : Nat × Nat × Nat) :
    VoxelisedGeometricalInfo3D :=
  let r0 : Vec3 := ⟨-ih1.read_dir.x, -ih1.phase_dir.x, -ih1.slice_dir.x⟩
  let r1 : Vec3 := ⟨-ih1.read_dir.y, -ih1.phase_dir.y, -ih1.slice_dir.y⟩
  let r2 : Vec3 := ⟨-ih1.read_dir.z, -ih1.phase_dir.z, -ih1.slice_dir.z⟩
  let off : Vec3 :=
    ⟨ih1.position.x - r0.x * (ih1.field_of_view.x / 2)
       - r0.y * (ih1.field_of_view.y / 2) - r0.z * (ih1.field_of_view.z / 2),
     ih1.position.y - r1.x * (ih1.field_of_view.x / 2)
       - r1.y * (ih1.field_of_view.y / 2) - r1.z * (ih1.field_of_view.z / 2),
     ih1.position.z - r2.x * (ih1.field_of_view.x / 2)
       - r2.y * (ih1.field_of_view.y / 2) - r2.z * (ih1.field_of_view.z / 2)⟩
  { offset := off, spacing := spacing, size := size,
    direction := (r0, r1, r2) }

/-- GadgetronImagesVector::set_up_geom_info (lines 2344-2477): nothing
to do on an empty container; sort first when unsorted; return without a
descriptor when the first image direction vectors are not unit vectors,
when the directions are not constant across images, or when a 2D stack
has inconsistent adjacent slice spacing; throw on 3D data with multiple
slices; otherwise derive offset, spacing, size and direction from the
first image (with the 2D stack z spacing taken from the first two
images). `.ok none` is a plain return that sets no descriptor. -/
def set_up_geom_info (c : GadgetronImagesVector) :
    Except Err (Option VoxelisedGeometricalInfo3D) :=
  if c.number < 1 then .ok none
  else
    match sortedImages c with
    | [] => .ok none
    | ih1img :: restImgs =>
      let ih1 := ih1img.head
      if ¬(is_unit_vector ih1.read_dir && is_unit_vector ih1.phase_dir &&
           is_unit_vector ih1.slice_dir) then .ok none
      else
        match dirCheckLoop ih1 ih1.slice restImgs with
        | none => .ok none
        | some nsMax =>
          let number_slices := nsMax + 1
          let size0 := ih1.matrix_size
          let spacing0 : Vec3 :=
            ⟨ih1.field_of_view.x / size0.1, ih1.field_of_view.y / size0.2.1,
             ih1.field_of_view.z / size0.2.2⟩
          let is_2d_stack := decide (1 < number_slices) && decide (size0.2.2 = 1)
          if 1 < number_slices ∧ 1 < size0.2.2 then .error .unsupported3D
          else
            let size1 := if is_2d_stack then (size0.1, size0.2.1, number_slices)
              else size0
            if is_2d_stack then
              match restImgs.head? with
              | none => .error .outOfRange
              | some ih2img =>
                let sp2 := get_slice_spacing ih1 ih2img.head
                if spacingCheckLoop sp2 (ih1img :: restImgs) then
                  .ok (some (mkGeomInfo ih1 ⟨spacing0.x, spacing0.y, sp2⟩ size1))
                else .ok none
            else .ok (some (mkGeomInfo ih1 spacing0 size1))

/-- The wraparound search loop of
CoilSensitivitiesVector::get_csm_as_cfimage(tag, offset) (lines
2562-2575): at step j the stored map at position (offset + j) mod items
is returned when its slice tag equals the requested slice tag and its
contrast tag is 0; after items steps the search throws. The fuel
argument counts the remaining steps. -/
def csmSearchLoop (s : GadgetronImagesVector) (tag : TagType)
    (offs : Nat) : Nat → Nat → Except Err CFImage
  | 0, _ => .error .noCoilmapMatch
  | fuel + 1, j =>
    let access_idx := (offs + j) % s.images.length
    match s.images[access_idx]? with
    | none => .error .outOfRange
    | some csm_img =>
      if (KSpaceSubset.get_tag_from_img csm_img).getD 1 0 = tag.getD 1 0 ∧
          (KSpaceSubset.get_tag_from_img csm_img).getD 2 0 = 0 then
        .ok csm_img
      else csmSearchLoop s tag offs fuel (j + 1)

/-- CoilSensitivitiesVector::get_csm_as_cfimage(tag, offset): run the
wraparound search over all stored maps starting at the offset. -/
def get_csm_as_cfimage (s : GadgetronImagesVector) (tag : TagType)
    (offs : Nat) : Except Err CFImage :=
  csmSearchLoop s tag offs s.images.length 0

/-- Decoding of a flat pixel index into (x, y, z, c) under x-fastest
addressing with the given x/y/z extents. -/
def decode4 (nx ny nz lin : Nat) : Nat × Nat × Nat × Nat :=
  (lin % nx, lin / nx % ny, lin / (nx * ny) % nz, lin / (nx * ny * nz))

/-- The per-image output of
CoilSensitivitiesVector::coilchannels_from_combined_image (lines
2598-2624): a copy of the coilmap whose header is replaced by the source
header and whose channel count is replaced by the coilmap channel
count; every pixel (nx, ny, nz, nc) inside the resulting extents is the
product of the source pixel read linearly at `nx + Nx*(ny + Ny*nz)` and
the coilmap pixel read through the coilmap strides. Pixels outside
those extents (unspecified storage after the header rewrite in C++) are
modelled as zero. -/
def mkForwardImage (src coilmap : CFImage) : CFImage :=
  let hd : ImageHeader := { src.head with channels := coilmap.nc }
  let mNx := hd.matrix_size.1
  let mNy := hd.matrix_size.2.1
  let mNz := hd.matrix_size.2.2
  let mNc := hd.channels
  { head := hd,
    data := fun lin =>
      if lin < mNx * mNy * mNz * mNc then
        let p := decode4 mNx mNy mNz lin
        CFloat.mul (src.data (p.1 + mNx * (p.2.1 + mNy * p.2.2.1)))
          (coilmap.at4 p.1 p.2.1 p.2.2.1 p.2.2.2)
      else CFloat.zero }

/-- The loop of coilchannels_from_combined_image (lines 2596-2625):
image i looks its coilmap up with offset i and is transformed by
mkForwardImage. -/
def forwardLoop (s : GadgetronImagesVector) :
    Nat → List CFImage → Except Err (List CFImage)
  | _, [] => .ok []
  | i, src :: rest => do
    let coilmap ← get_csm_as_cfimage s (KSpaceSubset.get_tag_from_img src) i
    let restImgs ← forwardLoop s (i + 1) rest
    .ok (mkForwardImage src coilmap :: restImgs)

/-- CoilSensitivitiesVector::forward (lines 2577-2592): error when the
number of stored maps differs from the number of images, when the
(broken) dimension-consistency check fails, or when the first image has
more than one channel; otherwise distribute every image through its
matched coilmap. -/
def CoilSensitivitiesVector.forward (s : GadgetronImagesVector)
    (combined_img : GadgetronImagesVector) :
    Except Err GadgetronImagesVector :=
  if combined_img.number ≠ s.number then .error .sizeMismatch
  else if ¬combined_img.check_dimension_consistency then
    .error .inconsistentDims
  else if (combined_img.get_image_dimensions 0).getD 3 0 ≠ 1 then
    .error .multiChannelSource
  else do
    let l ← forwardLoop s 0 combined_img.images
    .ok { images := l, sorted_ := false }

/-- The per-image output of
CoilSensitivitiesVector::combine_images_with_coilmaps (lines 2671-2694):
a single-channel image with the source header; each voxel (x, y, z)
inside the destination extents is the channel sum of the conjugated
coilmap value (coilmap strides) times the source pixel read linearly at
the same flat position, accumulated in increasing channel order; other
positions stay at the zero fill. -/
def mkBackwardImage (src coilmap : CFImage) : CFImage :=
  let hd : ImageHeader := { src.head with channels := 1 }
  let mNx := hd.matrix_size.1
  let mNy := hd.matrix_size.2.1
  let mNz := hd.matrix_size.2.2
  { head := hd,
    data := fun lin =>
      if lin < mNx * mNy * mNz then
        let p := decode4 mNx mNy mNz lin
        CFloat.sumUp
          (fun ch => CFloat.mul ((coilmap.at4 p.1 p.2.1 p.2.2.1 ch).conj)
            (src.data (p.1 + coilmap.nx *
              (p.2.1 + coilmap.ny * (p.2.2.1 + coilmap.nz * ch)))))
          coilmap.nc
      else CFloat.zero }

/-- The loop of combine_images_with_coilmaps (lines 2650-2697): image i
looks its coilmap up with offset i, the dimensions of image 0 of the
input container are compared with the coilmap dimensions (error on
mismatch), and the image is combined by mkBackwardImage. -/
def backwardLoop (s : GadgetronImagesVector) (img_dims : List Int) :
    Nat → List CFImage → Except Err (List CFImage)
  | _, [] => .ok []
  | i, src :: rest => do
    let coilmap ← get_csm_as_cfimage s (KSpaceSubset.get_tag_from_img src) i
    let csm_dims : List Int :=
      [(coilmap.nx : Int), (coilmap.ny : Int), (coilmap.nz : Int),
       (coilmap.nc : Int)]
    if img_dims ≠ csm_dims then .error .csmDimsMismatch
    else do
      let restImgs ← backwardLoop s img_dims (i + 1) rest
      .ok (mkBackwardImage src coilmap :: restImgs)

/-- CoilSensitivitiesVector::backward (lines 2628-2643): error when the
number of stored maps differs from the number of images or when the
(broken) dimension-consistency check fails; otherwise combine every
image with its matched coilmap, checking the dimensions of image 0
of the input container against each matched coilmap. -/
def CoilSensitivitiesVector.backward (s : GadgetronImagesVector)
    (img : GadgetronImagesVector) : Except Err GadgetronImagesVector :=
  if img.number ≠ s.number then .error .sizeMismatch
  else if ¬img.check_dimension_consistency then .error .inconsistentDims
  else do
    let l ← backwardLoop s (img.get_image_dimensions 0) 0 img.images
    .ok { images := l, sorted_ := false }

/-- The per-subset restatement of the assignment loop: the subset at
(absolute) position p0 + j receives, in logical order, exactly the
logical positions whose row-major flattened tag index equals p0 + j. -/
def assignRowMajor (c : AcquisitionsVector) (el : EncodingLimits)
    (is : List Nat) (p0 : Nat) : List KSpaceSubset → List KSpaceSubset
  | [] => []
  | s :: rest =>
    { s with idx_set := s.idx_set ++
        is.filter fun i => decide (logicalFlatIdx c el i = some (p0 : Int)) }
      :: assignRowMajor c el is (p0 + 1) rest

/-- The claimed description of organise_kspace: one candidate subset per
tuple of the Cartesian product of the encoding-limit extents, every
logical element assigned to the subset at the row-major flattened index
of its tag, and the subsets with empty index sets removed. -/
def organise_kspace_spec (c : AcquisitionsVector) (el : EncodingLimits) :
    List KSpaceSubset :=
  (assignRowMajor c el (List.range c.number) 0 (candidate_subsets el)).filter
    fun s => !s.idx_set.isEmpty

/-- The acquisition records at logical positions 0 .. number()-1. -/
def logical_acquisitions (c : AcquisitionsVector) :
    Except Err (List Acquisition) :=
  pickLoop c (List.range c.number)

/-- The time stamps of the acquisitions at logical positions
0 .. number()-1. -/
def logical_time_stamps (c : AcquisitionsVector) : Except Err (List Nat) :=
  (logical_acquisitions c).map (List.map Acquisition.acquisition_time_stamp)

/-- Encoding limits declaring two slices and defaults elsewhere. -/
def encLimitsSliceTwo : EncodingLimits :=
  ⟨none, some ⟨0, 1⟩, none, none, none, none⟩

/-- A Cartesian single-encoding header with the two-slice limits. -/
def infoSliceTwo : AcquisitionsInfo :=
  ⟨[⟨encLimitsSliceTwo, .cartesian⟩]⟩

/-- A sample acquisition with the given time stamp, slice index and flag
word. -/
def sampleAcq (ts sl fl : Nat) : Acquisition :=
  { flags := fl, acquisition_time_stamp := ts,
    idx := ⟨0, sl, 0, 0, 0, 0, 0⟩, active_channels := 1,
    number_of_samples := 0, data := [] }

/-- Example container for the partition invariant: two acquisitions in
slices 0 and 1. -/
def c1input : AcquisitionsVector :=
  { acqs_info := infoSliceTwo, acqs := [sampleAcq 2 0 0, sampleAcq 1 1 0],
    index_ := [], sorting_ := [], sorted_ := false }

/-- The subsets organise_kspace produces on c1input. -/
def c1organised : List KSpaceSubset :=
  [{ tag := [0, 0, 0, 0, 0, 0, 0, 0, 0, 0, 0, 0, 0, 0, 0], idx_set := [0] },
   { tag := [0, 1, 0, 0, 0, 0, 0, 0, 0, 0, 0, 0, 0, 0, 0], idx_set := [1] }]

/-- Example container for sort_by_time: the physical order is opposite
to the time-stamp order (time stamps 2 then 1) and the two acquisitions
are in different slices. -/
def c2input : AcquisitionsVector :=
  { acqs_info := infoSliceTwo, acqs := [sampleAcq 2 0 0, sampleAcq 1 1 0],
    index_ := [], sorting_ := [], sorted_ := false }

/-- Example unsorted operand container for the algebra precondition. -/
def c3x : AcquisitionsVector :=
  { acqs_info := infoSliceTwo, acqs := [sampleAcq 1 0 0],
    index_ := [], sorting_ := [], sorted_ := false }

/-- Example empty destination container for the algebra precondition. -/
def c3dest : AcquisitionsVector :=
  { acqs_info := infoSliceTwo, acqs := [], index_ := [], sorting_ := [],
    sorted_ := false }

/-- An acquisition whose flag word is exactly the noise-measurement
threshold and carries none of the four exempting flags. -/
def c4acq : Acquisition := sampleAcq 1 0 (2 ^ 18)

/-- Container holding only c4acq. -/
def c4input : AcquisitionsVector :=
  { acqs_info := infoSliceTwo, acqs := [c4acq], index_ := [], sorting_ := [],
    sorted_ := false }

/-- Example container for the row-major description of
organise_kspace. -/
def c5input : AcquisitionsVector :=
  { acqs_info := infoSliceTwo, acqs := [sampleAcq 5 1 0, sampleAcq 6 0 0],
    index_ := [], sorting_ := [], sorted_ := false }

/-- The subsets organise_kspace produces on c5input. -/
def c5organised : List KSpaceSubset :=
  [{ tag := [0, 0, 0, 0, 0, 0, 0, 0, 0, 0, 0, 0, 0, 0, 0], idx_set := [1] },
   { tag := [0, 1, 0, 0, 0, 0, 0, 0, 0, 0, 0, 0, 0, 0, 0], idx_set := [0] }]

/-- Image header with the given read direction; the other directions are
the y and z unit vectors, the matrix is a single voxel, and all counter
indices are zero. -/
def mkTestHdr (rd : Vec3) : ImageHeader :=
  { read_dir := rd, phase_dir := ⟨0, 1, 0⟩, slice_dir := ⟨0, 0, 1⟩,
    position := ⟨0, 0, 0⟩, field_of_view := ⟨1, 1, 1⟩,
    matrix_size := (1, 1, 1), channels := 1,
    average := 0, slice := 0, contrast := 0, phase := 0,
    repetition := 0, set := 0 }

/-- Constant unit sample data. -/
def oneData : Nat → CFloat := fun _ => ⟨1, 0⟩

/-- First image of the unit-vector counterexample: exact unit
directions. -/
def c6img0 : CFImage := ⟨mkTestHdr ⟨1, 0, 0⟩, oneData⟩

/-- Second image of the unit-vector counterexample: its read direction
has squared norm 1 + 2/12500 + 1/156250000, which fails the unit check,
while every component is within 1e-4 of the first image. -/
def c6img1 : CFImage := ⟨mkTestHdr ⟨1 + 1 / 12500, 0, 0⟩, oneData⟩

/-- Sorted two-image container whose second image has a non-unit read
direction. -/
def c6input : GadgetronImagesVector := ⟨[c6img0, c6img1], true⟩

/-- The geometry descriptor set_up_geom_info derives on c6input. -/
def c6geom : VoxelisedGeometricalInfo3D :=
  { offset := ⟨1 / 2, 1 / 2, 1 / 2⟩, spacing := ⟨1, 1, 1⟩,
    size := (1, 1, 1),
    direction := (⟨-1, 0, 0⟩, ⟨0, -1, 0⟩, ⟨0, 0, -1⟩) }

/-- Single image with a clearly non-unit read direction. -/
def c6wimg : CFImage := ⟨mkTestHdr ⟨2, 0, 0⟩, oneData⟩

/-- Sorted container whose first image fails the unit check. -/
def c6winput : GadgetronImagesVector := ⟨[c6wimg], true⟩

/-- Calibration-flagged acquisition (parallel-calibration bit, flag 20). -/
def c7acq0 : Acquisition := sampleAcq 2 0 (2 ^ 19)

/-- Plain imaging acquisition. -/
def c7acq1 : Acquisition := sampleAcq 1 1 0

/-- Cartesian container with one calibration-flagged and one plain
acquisition. -/
def c7ad : AcquisitionsVector :=
  { acqs_info := infoSliceTwo, acqs := [c7acq0, c7acq1], index_ := [],
    sorting_ := [], sorted_ := false }

/-- The clone of c7ad. -/
def c7clone : AcquisitionsVector :=
  { acqs_info := infoSliceTwo, acqs := [c7acq0, c7acq1], index_ := [],
    sorting_ := [], sorted_ := false }

/-- A single-voxel test image with the given x extent and channel
count. -/
def mkTestImage (nx nc : Nat) : CFImage :=
  ⟨{ mkTestHdr ⟨1, 0, 0⟩ with matrix_size := (nx, 1, 1), channels := nc },
   oneData⟩

/-- Two stored sensitivity maps of a single voxel each. -/
def c8cexS : GadgetronImagesVector := ⟨[mkTestImage 1 1, mkTestImage 1 1], false⟩

/-- Input image container whose second image has a different x extent
than the maps (and than its own first image). -/
def c8cexImgs : GadgetronImagesVector :=
  ⟨[mkTestImage 1 1, mkTestImage 2 1], false⟩

/-- Stored map matched to the second image of c8cexImgs by the
wraparound search at offset 1. -/
def c8cexMap1 : CFImage := mkTestImage 1 1

/-- One stored sensitivity map for the backward witness. -/
def c8wS : GadgetronImagesVector := ⟨[mkTestImage 1 1], false⟩

/-- One single-voxel multi-channel input image for the backward
witness. -/
def c8wImgs : GadgetronImagesVector := ⟨[mkTestImage 1 1], false⟩

/-- The container backward produces on the witness input. -/
def c8wOut : GadgetronImagesVector :=
  match CoilSensitivitiesVector.backward c8wS c8wImgs with
  | .ok out => out
  | .error _ => ⟨[], false⟩

/-- One stored map, for the map-count counterexample of forward. -/
def c9cexS : GadgetronImagesVector := ⟨[mkTestImage 1 1], false⟩

/-- Two single-channel images to distribute, more than the stored
maps. -/
def c9cexImgs : GadgetronImagesVector :=
  ⟨[mkTestImage 1 1, mkTestImage 1 1], false⟩

/-- One stored map for the forward witness. -/
def c9wS : GadgetronImagesVector := ⟨[mkTestImage 1 1], false⟩

/-- Two images for the forward witness count check. -/
def c9wImgs : GadgetronImagesVector :=
  ⟨[mkTestImage 1 1, mkTestImage 1 1], false⟩

/-- Image container with two images of different pixel dimensions, for
the dimension-consistency claim. -/
def c10input : GadgetronImagesVector :=
  ⟨[mkTestImage 1 1, mkTestImage 3 1], false⟩

/-- An empty coil-sensitivity container for the dimension-consistency
claim. -/
def c10maps : GadgetronImagesVector := ⟨[], false⟩
theorem appendIdxAt_length (b : List KSpaceSubset) (j i : Nat) :
    (appendIdxAt b j i).length = b.length := by
  induction b generalizing j with
  | nil => simp [appendIdxAt]
  | cons s rest ih =>
    cases j with
    | zero => simp [appendIdxAt]
    | succ j => simp [appendIdxAt, ih]

theorem assignRowMajor_nil (c : AcquisitionsVector) (el : EncodingLimits)
    (p0 : Nat) (b : List KSpaceSubset) :
    assignRowMajor c el [] p0 b = b := by
  induction b generalizing p0 with
  | nil => simp [assignRowMajor]
  | cons s rest ih => simp [assignRowMajor, ih]

theorem assignRowMajor_skip (c : AcquisitionsVector) (el : EncodingLimits)
    (i : Nat) (is : List Nat) (p0 : Nat) (b : List KSpaceSubset)
    (h : ∀ j, j < b.length → logicalFlatIdx c el i ≠ some ((p0 + j : Nat) : Int)) :
    assignRowMajor c el (i :: is) p0 b = assignRowMajor c el is p0 b := by
  induction b generalizing p0 with
  | nil => simp [assignRowMajor]
  | cons s rest ih =>
    have h0 : logicalFlatIdx c el i ≠ some ((p0 : Nat) : Int) := by
      have := h 0 (by simp)
      simpa using this
    have htail : ∀ j, j < rest.length →
        logicalFlatIdx c el i ≠ some ((p0 + 1 + j : Nat) : Int) := by
      intro j hj
      have := h (j + 1) (by simp; omega)
      convert this using 3
      omega
    simp only [assignRowMajor, List.filter_cons]
    rw [ih (p0 + 1) htail]
    simp [h0]

theorem assignRowMajor_cons (c : AcquisitionsVector) (el : EncodingLimits)
    (i : Nat) (is : List Nat) (b : List KSpaceSubset) (p0 j : Nat)
    (hj : j < b.length)
    (hk : logicalFlatIdx c el i = some ((p0 + j : Nat) : Int)) :
    assignRowMajor c el (i :: is) p0 b
      = assignRowMajor c el is p0 (appendIdxAt b j i) := by
  induction b generalizing p0 j with
  | nil => simp at hj
  | cons s rest ih =>
    cases j with
    | zero =>
      have h0 : logicalFlatIdx c el i = some ((p0 : Nat) : Int) := by
        simpa using hk
      have htail : ∀ m, m < rest.length →
          logicalFlatIdx c el i ≠ some ((p0 + 1 + m : Nat) : Int) := by
        intro m _
        rw [h0]
        intro hcontra
        have : (p0 : Int) = ((p0 + 1 + m : Nat) : Int) := by
          exact Option.some.inj hcontra
        omega
      simp only [appendIdxAt, assignRowMajor, List.filter_cons, h0]
      rw [assignRowMajor_skip c el i is (p0 + 1) rest htail]
      simp [List.append_assoc]
    | succ m =>
      have h0 : logicalFlatIdx c el i ≠ some ((p0 : Nat) : Int) := by
        rw [hk]
        intro hcontra
        have : ((p0 + (m + 1) : Nat) : Int) = ((p0 : Nat) : Int) :=
          Option.some.inj hcontra
        omega
      have hk1 : logicalFlatIdx c el i = some ((p0 + 1 + m : Nat) : Int) := by
        convert hk using 3
        omega
      simp only [appendIdxAt, assignRowMajor, List.filter_cons]
      rw [ih (p0 + 1) m (by simpa using hj) hk1]
      simp [h0]

theorem organiseLoop_eq (c : AcquisitionsVector) (el : EncodingLimits)
    (is : List Nat) (b b' : List KSpaceSubset)
    (h : organiseLoop c el b is = .ok b') :
    b' = assignRowMajor c el is 0 b := by
  induction is generalizing b with
  | nil =>
    simp only [organiseLoop] at h
    cases h
    rw [assignRowMajor_nil]
  | cons i rest ih =>
    rw [organiseLoop] at h
    rcases hacq : c.get_acquisition i with e | ⟨st, acq⟩
    · rw [hacq] at h
      exact absurd h (by simp [Bind.bind, Except.bind])
    · rw [hacq] at h
      simp only [Bind.bind, Except.bind] at h
      by_cases hcond : 0 ≤ flat_index el (KSpaceSubset.get_tag_from_acquisition acq)
          ∧ (flat_index el (KSpaceSubset.get_tag_from_acquisition acq)).toNat < b.length
      · rw [if_pos hcond] at h
        have := ih _ h
        rw [this]
        have hk : logicalFlatIdx c el i = some
            ((0 + (flat_index el (KSpaceSubset.get_tag_from_acquisition acq)).toNat : Nat) : Int) := by
          rw [logicalFlatIdx, hacq]
          rw [Nat.zero_add, Int.toNat_of_nonneg hcond.1]
        rw [assignRowMajor_cons c el i rest b 0 _ hcond.2 hk]
      · rw [if_neg hcond] at h
        cases h

theorem countP_assignRowMajor_miss (c : AcquisitionsVector)
    (el : EncodingLimits) (is : List Nat) (i : Nat) (p0 : Nat)
    (tags : List TagType)
    (h : ∀ j, j < tags.length →
      logicalFlatIdx c el i ≠ some ((p0 + j : Nat) : Int)) :
    ((assignRowMajor c el is p0
        (tags.map fun t => ({ tag := t, idx_set := [] } : KSpaceSubset))).countP
      fun s => decide (i ∈ s.idx_set)) = 0 := by
  induction tags generalizing p0 with
  | nil => simp [assignRowMajor]
  | cons t ts ih =>
    have h0 : logicalFlatIdx c el i ≠ some ((p0 : Nat) : Int) := by
      simpa using h 0 (by simp)
    have htail : ∀ j, j < ts.length →
        logicalFlatIdx c el i ≠ some ((p0 + 1 + j : Nat) : Int) := by
      intro j hj
      have := h (j + 1) (by simp; omega)
      convert this using 3
      omega
    simp only [List.map_cons, assignRowMajor, List.countP_cons]
    rw [ih (p0 + 1) htail]
    simp only [List.nil_append]
    have : i ∉ is.filter fun i' =>
        decide (logicalFlatIdx c el i' = some (p0 : Int)) := by
      intro hmem
      have := (List.mem_filter.mp hmem).2
      simp at this
      exact h0 this
    simp [this]

theorem countP_assignRowMajor_hit (c : AcquisitionsVector)
    (el : EncodingLimits) (is : List Nat) (i : Nat) (p0 j : Nat)
    (tags : List TagType) (hj : j < tags.length) (hi : i ∈ is)
    (hk : logicalFlatIdx c el i = some ((p0 + j : Nat) : Int)) :
    ((assignRowMajor c el is p0
        (tags.map fun t => ({ tag := t, idx_set := [] } : KSpaceSubset))).countP
      fun s => decide (i ∈ s.idx_set)) = 1 := by
  induction tags generalizing p0 j with
  | nil => simp at hj
  | cons t ts ih =>
    cases j with
    | zero =>
      have h0 : logicalFlatIdx c el i = some ((p0 : Nat) : Int) := by
        simpa using hk
      have htail : ∀ m, m < ts.length →
          logicalFlatIdx c el i ≠ some ((p0 + 1 + m : Nat) : Int) := by
        intro m _
        rw [h0]
        intro hcontra
        have : (p0 : Int) = ((p0 + 1 + m : Nat) : Int) :=
          Option.some.inj hcontra
        omega
      simp only [List.map_cons, assignRowMajor, List.countP_cons]
      rw [countP_assignRowMajor_miss c el is i (p0 + 1) ts htail]
      have : i ∈ is.filter fun i' =>
          decide (logicalFlatIdx c el i' = some (p0 : Int)) :=
        List.mem_filter.mpr ⟨hi, by simp [h0]⟩
      simp [this]
    | succ m =>
      have h0 : logicalFlatIdx c el i ≠ some ((p0 : Nat) : Int) := by
        rw [hk]
        intro hcontra
        have : ((p0 + (m + 1) : Nat) : Int) = ((p0 : Nat) : Int) :=
          Option.some.inj hcontra
        omega
      have hk1 : logicalFlatIdx c el i = some ((p0 + 1 + m : Nat) : Int) := by
        convert hk using 3
        omega
      simp only [List.map_cons, assignRowMajor, List.countP_cons]
      rw [ih (p0 + 1) m (by simpa using hj) hk1]
      have : i ∉ is.filter fun i' =>
          decide (logicalFlatIdx c el i' = some (p0 : Int)) := by
        intro hmem
        have := (List.mem_filter.mp hmem).2
        simp at this
        exact h0 this
      simp [this]

theorem organiseLoop_ok_bounds (c : AcquisitionsVector)
    (el : EncodingLimits) (is : List Nat) (b b' : List KSpaceSubset)
    (h : organiseLoop c el b is = .ok b') :
    ∀ i ∈ is, ∃ k, logicalFlatIdx c el i = some k ∧ 0 ≤ k ∧
      k.toNat < b.length := by
  induction is generalizing b with
  | nil => simp
  | cons i rest ih =>
    rw [organiseLoop] at h
    rcases hacq : c.get_acquisition i with e | ⟨st, acq⟩
    · rw [hacq] at h
      exact absurd h (by simp [Bind.bind, Except.bind])
    · rw [hacq] at h
      simp only [Bind.bind, Except.bind] at h
      by_cases hcond : 0 ≤ flat_index el (KSpaceSubset.get_tag_from_acquisition acq)
          ∧ (flat_index el (KSpaceSubset.get_tag_from_acquisition acq)).toNat < b.length
      · rw [if_pos hcond] at h
        intro i' hmem
        rcases List.mem_cons.mp hmem with hmem | hmem
        · subst hmem
          exact ⟨_, by rw [logicalFlatIdx, hacq], hcond.1, hcond.2⟩
        · have := ih _ h i' hmem
          rwa [appendIdxAt_length] at this
      · rw [if_neg hcond] at h
        cases h

theorem mem_assignRowMajor (c : AcquisitionsVector) (el : EncodingLimits)
    (is : List Nat) (p0 : Nat) (b : List KSpaceSubset) :
    ∀ s ∈ assignRowMajor c el is p0 b, ∀ i ∈ s.idx_set,
      (∃ s0 ∈ b, i ∈ s0.idx_set) ∨ i ∈ is := by
  induction b generalizing p0 with
  | nil => simp [assignRowMajor]
  | cons s0 rest ih =>
    intro s hs i hi
    simp only [assignRowMajor, List.mem_cons] at hs
    rcases hs with hs | hs
    · subst hs
      simp only [List.mem_append] at hi
      rcases hi with hi | hi
      · exact Or.inl ⟨s0, by simp, hi⟩
      · exact Or.inr (List.mem_filter.mp hi).1
    · rcases ih (p0 + 1) s hs i hi with ⟨s1, hs1, hi1⟩ | hmem
      · exact Or.inl ⟨s1, by simp [hs1], hi1⟩
      · exact Or.inr hmem

theorem organise_kspace_ok_elim (c : AcquisitionsVector)
    (l : List KSpaceSubset) (h : c.organise_kspace = .ok l) :
    ∃ e assigned, c.acqs_info.encodings.head? = some e ∧
      organiseLoop c e.encodingLimits (candidate_subsets e.encodingLimits)
        (List.range c.number) = .ok assigned ∧
      l = assigned.filter fun s => !s.idx_set.isEmpty := by
  rw [AcquisitionsVector.organise_kspace] at h
  by_cases hlen : 1 < c.acqs_info.encodings.length
  · rw [if_pos hlen] at h
    cases h
  · rw [if_neg hlen] at h
    rcases hhead : c.acqs_info.encodings.head? with _ | e
    · rw [hhead] at h
      cases h
    · rw [hhead] at h
      simp only [Bind.bind, Except.bind] at h
      rcases hloop : organiseLoop c e.encodingLimits
          (candidate_subsets e.encodingLimits) (List.range c.number)
        with er | assigned
      · rw [hloop] at h
        cases h
      · rw [hloop] at h
        cases h
        exact ⟨e, assigned, rfl, hloop, rfl⟩

/-- C5: organise_kspace creates one candidate subset per tuple of the
Cartesian product of the encoding-limit extents of
average/slice/contrast/phase/repetition/set (segment fixed to one
state), assigns every logical element to the subset at the row-major
flattened index of its tag in the fixed axis order, and removes the
subsets whose index set stayed empty. -/
theorem organise_kspace_row_major (c : AcquisitionsVector) (e : Encoding)
    (l : List KSpaceSubset) (henc : c.acqs_info.encodings = [e])
    (h : c.organise_kspace = .ok l) :
    l = organise_kspace_spec c e.encodingLimits := by
  rcases organise_kspace_ok_elim c l h with ⟨e', assigned, hhead, hloop, hl⟩
  rw [henc] at hhead
  simp only [List.head?] at hhead
  cases hhead
  rw [hl, organise_kspace_spec, organiseLoop_eq c _ _ _ _ hloop]

/-- C1: after a successful organise_kspace on a container whose header
declares a single encoding, the retained subsets are all nonempty and
their index sets partition the logical positions 0 .. number()-1: every
logical position lies in exactly one retained subset and every stored
index is a valid logical position. -/
theorem organise_kspace_partition (c : AcquisitionsVector)
    (l : List KSpaceSubset) (henc : c.acqs_info.encodings.length = 1)
    (h : c.organise_kspace = .ok l) :
    (∀ s ∈ l, s.idx_set ≠ []) ∧
    (∀ i, i < c.number →
      (l.countP fun s => decide (i ∈ s.idx_set)) = 1) ∧
    (∀ s ∈ l, ∀ i ∈ s.idx_set, i < c.number) := by
  rcases organise_kspace_ok_elim c l h with ⟨e, assigned, _, hloop, hl⟩
  have hassigned := organiseLoop_eq c _ _ _ _ hloop
  refine ⟨?_, ?_, ?_⟩
  · intro s hs
    rw [hl] at hs
    have := (List.mem_filter.mp hs).2
    simpa using this
  · intro i hi
    have hcount : (l.countP fun s => decide (i ∈ s.idx_set))
        = (assigned.countP fun s => decide (i ∈ s.idx_set)) := by
      rw [hl, List.countP_filter]
      apply List.countP_congr
      intro s _
      by_cases hmem : i ∈ s.idx_set
      · have : s.idx_set ≠ [] := by
          intro hnil
          rw [hnil] at hmem
          cases hmem
        simp [hmem, this]
      · simp [hmem]
    rcases organiseLoop_ok_bounds c _ _ _ _ hloop i
        (List.mem_range.mpr hi) with ⟨k, hk, hk0, hklt⟩
    rw [hcount, hassigned, candidate_subsets]
    apply countP_assignRowMajor_hit c e.encodingLimits _ i 0 k.toNat
    · rw [candidate_subsets, List.length_map] at hklt
      exact hklt
    · exact List.mem_range.mpr hi
    · rw [hk]
      congr 1
      rw [Nat.zero_add, Int.toNat_of_nonneg hk0]
  · intro s hs i hi
    rw [hl] at hs
    have hs' := (List.mem_filter.mp hs).1
    rw [hassigned] at hs'
    rcases mem_assignRowMajor c _ _ _ _ s hs' i hi with ⟨s0, hs0, hi0⟩ | hmem
    · rw [candidate_subsets] at hs0
      rcases List.mem_map.mp hs0 with ⟨t, _, ht⟩
      rw [← ht] at hi0
      cases hi0
    · exact List.mem_range.mp hmem

/-- C3: for all containers x and y with x or y unsorted, multiply(x, y)
on any destination container raises the unsorted-operands error before
computing or storing anything. -/
theorem multiply_requires_sorted (c x y : AcquisitionsVector)
    (h : x.sorted_ = false ∨ y.sorted_ = false) :
    c.multiply x y = .error .unsortedOperands := by
  rw [AcquisitionsVector.multiply, AcquisitionsVector.binary_op]
  have hns : ¬(x.sorted_ ∧ y.sorted_) := by
    rcases h with h | h <;> simp [h]
  simp [hns]

/-- C4: a successfully read acquisition is signalled as ignored by
get_acquisition exactly when none of parallel-calibration,
parallel-calibration-and-imaging, last-in-measurement, reverse is set
and its numeric flag word is at or above the noise-measurement
threshold 2^(noise-measurement-bit - 1). -/
theorem get_acquisition_ignored_iff (c : AcquisitionsVector) (i : Nat)
    (st : Bool) (acq : Acquisition)
    (h : c.get_acquisition i = .ok (st, acq)) :
    st = !(TO_BE_IGNORED acq) ∧
    (st = false ↔
      (isFlagSet acq.flags ISMRMRD_ACQ_IS_PARALLEL_CALIBRATION = false ∧
       isFlagSet acq.flags ISMRMRD_ACQ_IS_PARALLEL_CALIBRATION_AND_IMAGING = false ∧
       isFlagSet acq.flags ISMRMRD_ACQ_LAST_IN_MEASUREMENT = false ∧
       isFlagSet acq.flags ISMRMRD_ACQ_IS_REVERSE = false ∧
       2 ^ (ISMRMRD_ACQ_IS_NOISE_MEASUREMENT - 1) ≤ acq.flags)) := by
  have hst : st = !(TO_BE_IGNORED acq) := by
    rw [AcquisitionsVector.get_acquisition] at h
    rcases hidx : c.index1 i with e | ind
    · rw [hidx] at h
      exact absurd h (by simp [Bind.bind, Except.bind])
    · rw [hidx] at h
      simp only [Bind.bind, Except.bind] at h
      rcases hget : c.acqs[ind]? with _ | a
      · rw [hget] at h
        cases h
      · rw [hget] at h
        cases h
        rfl
  refine ⟨hst, ?_⟩
  rw [hst]
  simp only [Bool.not_eq_false', TO_BE_IGNORED, Bool.and_eq_true,
    Bool.not_eq_true', decide_eq_true_eq]
  constructor
  · rintro ⟨⟨⟨⟨h1, h2⟩, h3⟩, h4⟩, h5⟩
    exact ⟨h1, h2, h3, h4, h5⟩
  · rintro ⟨h1, h2, h3, h4, h5⟩
    exact ⟨⟨⟨⟨h1, h2⟩, h3⟩, h4⟩, h5⟩

theorem are_vectors_equal_self (v : Vec3) : are_vectors_equal v v = true := by
  simp [are_vectors_equal]

theorem dirCheckLoop_none (h1 : ImageHeader) (ns : Nat) (l : List CFImage)
    (him : ∃ im ∈ l,
      (are_vectors_equal h1.read_dir im.head.read_dir &&
       are_vectors_equal h1.phase_dir im.head.phase_dir &&
       are_vectors_equal h1.slice_dir im.head.slice_dir) = false) :
    dirCheckLoop h1 ns l = none := by
  induction l generalizing ns with
  | nil => simp at him
  | cons im rest ih =>
    rcases him with ⟨im', him', hviol⟩
    rcases List.mem_cons.mp him' with heq | hmem
    · subst heq
      rw [dirCheckLoop]
      simp [hviol]
    · rw [dirCheckLoop]
      by_cases hok : (are_vectors_equal h1.read_dir im.head.read_dir &&
          are_vectors_equal h1.phase_dir im.head.phase_dir &&
          are_vectors_equal h1.slice_dir im.head.slice_dir) = true
      · simp only [hok, if_true]
        exact ih _ ⟨im', hmem, hviol⟩
      · simp only [Bool.not_eq_true] at hok
        simp [hok]

/-- C6 (amended): set_up_geom_info returns without throwing and without
setting a geometry descriptor whenever the first (post-sort) image
direction vectors fail the unit-length check with tolerance 1e-4, or
some image direction vectors differ from the first image by more than
1e-4 in a component; the unit-length check covers only the first image
and constancy is checked against the first image. -/
theorem set_up_geom_info_validation (c : GadgetronImagesVector)
    (ih1img : CFImage) (hne : 1 ≤ c.number)
    (hhead : (sortedImages c).head? = some ih1img)
    (hviol :
      (is_unit_vector ih1img.head.read_dir &&
       is_unit_vector ih1img.head.phase_dir &&
       is_unit_vector ih1img.head.slice_dir) = false ∨
      ∃ im ∈ sortedImages c,
        (are_vectors_equal ih1img.head.read_dir im.head.read_dir &&
         are_vectors_equal ih1img.head.phase_dir im.head.phase_dir &&
         are_vectors_equal ih1img.head.slice_dir im.head.slice_dir) = false) :
    set_up_geom_info c = .ok none := by
  obtain ⟨t, ht⟩ : ∃ t, sortedImages c = ih1img :: t := by
    cases hl : sortedImages c with
    | nil => rw [hl] at hhead; cases hhead
    | cons a t =>
      rw [hl] at hhead
      cases hhead
      exact ⟨t, rfl⟩
  rw [set_up_geom_info, if_neg (by omega), ht]
  rcases hviol with hviol | ⟨im, him, hviol⟩
  · simp [hviol]
  · by_cases hunit : (is_unit_vector ih1img.head.read_dir &&
        is_unit_vector ih1img.head.phase_dir &&
        is_unit_vector ih1img.head.slice_dir) = true
    · simp only [hunit, not_true, if_false]
      have himt : im ∈ t := by
        rw [ht] at him
        rcases List.mem_cons.mp him with heq | hmem
        · subst heq
          rw [are_vectors_equal_self, are_vectors_equal_self,
            are_vectors_equal_self] at hviol
          cases hviol
        · exact hmem
      rw [dirCheckLoop_none _ _ _ ⟨im, himt, hviol⟩]
    · simp only [Bool.not_eq_true] at hunit
      simp [hunit]

theorem bind_ok_elim {α β : Type} {x : Except Err α} {f : α → Except Err β}
    {b : β} (h : x >>= f = .ok b) : ∃ a, x = .ok a ∧ f a = .ok b := by
  cases x with
  | error e => simp [Bind.bind, Except.bind] at h
  | ok a => exact ⟨a, rfl, by simpa [Bind.bind, Except.bind] using h⟩

theorem sort_by_time_ok_fields (c r : AcquisitionsVector)
    (h : c.sort_by_time = .ok r) :
    r.acqs = c.acqs ∧ r.sorted_ = true ∧ r.acqs_info = c.acqs_info := by
  rw [AcquisitionsVector.sort_by_time] at h
  by_cases hn : c.number = 0
  · simp only [hn, if_pos] at h
    obtain ⟨s, ho, h2⟩ := bind_ok_elim h
    cases h2
    exact ⟨rfl, rfl, rfl⟩
  · simp only [hn, if_false] at h
    obtain ⟨a, hts, h2⟩ := bind_ok_elim h
    obtain ⟨s, ho, h3⟩ := bind_ok_elim h2
    cases h3
    exact ⟨rfl, rfl, rfl⟩

theorem clone_ok_fields (ad cl : AcquisitionsVector)
    (h : ad.clone = .ok cl) :
    pickLoop ad (List.range ad.number) = .ok cl.acqs ∧
    cl.sorted_ = ad.sorted_ ∧ cl.acqs_info = ad.acqs_info ∧
    cl.index_ = [] := by
  rw [AcquisitionsVector.clone] at h
  obtain ⟨l, hp, h2⟩ := bind_ok_elim h
  by_cases hs : ad.sorted_ = true
  · simp only [hs, if_pos] at h2
    obtain ⟨s, ho, h3⟩ := bind_ok_elim h2
    cases h3
    exact ⟨hp, hs.symm, rfl, rfl⟩
  · simp only [Bool.not_eq_true] at hs
    simp only [hs, Bool.false_eq_true, if_false] at h2
    cases h2
    exact ⟨hp, hs.symm, rfl, rfl⟩

/-- C7: on Cartesian data, when no acquisition carries a calibration
flag, the calibration container is the clone of the whole input and no
error is raised; when some do, the calibration container is exactly the
flagged acquisitions (in index order), subsequently sorted by time. -/
theorem extract_calibration_flagged_or_whole
    (ad cl : AcquisitionsVector) (idxs : List Nat)
    (hcart : ad.get_trajectory_type = .ok .cartesian)
    (hclone : ad.clone = .ok cl)
    (hflag : ad.get_flagged_acquisitions_index calibration_flags = .ok idxs) :
    (idxs = [] →
      extract_calibration_data ad = .ok cl ∧
      pickLoop ad (List.range ad.number) = .ok cl.acqs ∧
      cl.sorted_ = ad.sorted_) ∧
    (∀ l, idxs ≠ [] → pickLoop ad idxs = .ok l →
      extract_calibration_data ad
        = AcquisitionsVector.sort_by_time
            { acqs_info := ad.acqs_info, acqs := l, index_ := [],
              sorting_ := cl.sorting_, sorted_ := cl.sorted_ } ∧
      ∀ r, extract_calibration_data ad = .ok r →
        r.acqs = l ∧ r.sorted_ = true) := by
  have hfields := clone_ok_fields ad cl hclone
  constructor
  · intro hnil
    subst hnil
    rw [extract_calibration_data, hclone]
    simp only [Bind.bind, Except.bind, hcart]
    simp only [if_pos rfl, hflag]
    simp only [List.length_nil, Nat.zero_lt_one, if_pos]
    exact ⟨trivial, hfields.1, hfields.2.1⟩
  · intro l hne hpick
    have hext : extract_calibration_data ad
        = AcquisitionsVector.sort_by_time
            { acqs_info := ad.acqs_info, acqs := l, index_ := [],
              sorting_ := cl.sorting_, sorted_ := cl.sorted_ } := by
      rw [extract_calibration_data, hclone]
      simp only [Bind.bind, Except.bind, hcart]
      simp only [if_pos rfl, hflag]
      have hlen : ¬(idxs.length < 1) := by
        cases idxs with
        | nil => exact absurd rfl hne
        | cons a t => simp
      simp only [hlen, if_false]
      rw [AcquisitionsVector.get_subset]
      have hdest : ({ (cl.empty) with acqs_info := ad.acqs_info }
          : AcquisitionsVector).number = 0 := by
        simp [AcquisitionsVector.empty, AcquisitionsVector.number]
      simp only [AcquisitionsVector.empty, Bind.bind, Except.bind]
      simp only [AcquisitionsVector.number, List.length_nil,
        Nat.lt_irrefl, if_false, hpick]
      simp [List.nil_append]
    refine ⟨hext, ?_⟩
    intro r hr
    rw [hext] at hr
    have := sort_by_time_ok_fields _ r hr
    exact ⟨this.1, this.2.1⟩

theorem csmSearchLoop_error (s : GadgetronImagesVector) (tag : TagType)
    (offs : Nat) (fuel j : Nat) (e : Err)
    (h : csmSearchLoop s tag offs fuel j = .error e) :
    e = .noCoilmapMatch ∨ e = .outOfRange := by
  induction fuel generalizing j with
  | zero =>
    rw [csmSearchLoop] at h
    cases h
    exact Or.inl rfl
  | succ fuel ih =>
    rw [csmSearchLoop] at h
    split at h
    · cases h
      exact Or.inr rfl
    · split at h
      · cases h
      · exact ih _ h

theorem forwardLoop_error (s : GadgetronImagesVector) (i : Nat)
    (l : List CFImage) (e : Err) (h : forwardLoop s i l = .error e) :
    e = .noCoilmapMatch ∨ e = .outOfRange := by
  induction l generalizing i with
  | nil =>
    rw [forwardLoop] at h
    cases h
  | cons src rest ih =>
    rw [forwardLoop] at h
    rcases hcsm : get_csm_as_cfimage s (KSpaceSubset.get_tag_from_img src) i
      with e' | cm
    · rw [hcsm] at h
      simp only [Bind.bind, Except.bind] at h
      cases h
      exact csmSearchLoop_error _ _ _ _ _ _ hcsm
    · rw [hcsm] at h
      simp only [Bind.bind, Except.bind] at h
      rcases hrest : forwardLoop s (i + 1) rest with e' | outs
      · rw [hrest] at h
        cases h
        exact ih _ hrest
      · rw [hrest] at h
        cases h

theorem backwardLoop_error (s : GadgetronImagesVector) (d : List Int)
    (i : Nat) (l : List CFImage) (e : Err)
    (h : backwardLoop s d i l = .error e) :
    e = .noCoilmapMatch ∨ e = .outOfRange ∨ e = .csmDimsMismatch := by
  induction l generalizing i with
  | nil =>
    rw [backwardLoop] at h
    cases h
  | cons src rest ih =>
    rw [backwardLoop] at h
    rcases hcsm : get_csm_as_cfimage s (KSpaceSubset.get_tag_from_img src) i
      with e' | cm
    · rw [hcsm] at h
      simp only [Bind.bind, Except.bind] at h
      cases h
      rcases csmSearchLoop_error _ _ _ _ _ _ hcsm with h1 | h1
      · exact Or.inl h1
      · exact Or.inr (Or.inl h1)
    · rw [hcsm] at h
      simp only [Bind.bind, Except.bind] at h
      split at h
      · cases h
        exact Or.inr (Or.inr rfl)
      · rcases hrest : backwardLoop s d (i + 1) rest with e' | outs
        · rw [hrest] at h
          cases h
          exact ih _ hrest
        · rw [hrest] at h
          cases h

theorem check_dimension_consistency_true (c : GadgetronImagesVector) :
    c.check_dimension_consistency = true := by
  rw [GadgetronImagesVector.check_dimension_consistency]
  have hself : (c.get_image_dimensions 0 == c.get_image_dimensions 0) = true :=
    beq_self_eq_true _
  have key : ∀ (l : List Nat) (b : Bool),
      (l.foldl (fun dims_match _ => dims_match &&
        (c.get_image_dimensions 0 == c.get_image_dimensions 0)) b) = b := by
    intro l
    induction l with
    | nil => intro b; rfl
    | cons a t ih =>
      intro b
      rw [List.foldl_cons]
      have hb : (b && (c.get_image_dimensions 0 == c.get_image_dimensions 0))
          = b := by
        rw [hself, Bool.and_true]
      rw [hb]
      exact ih b
  exact key _ _

/-- C10: for every image container with at least one image,
check_dimension_consistency returns true regardless of the per-image
dimensions (each loop iteration fetches the dimensions of image 0 and
compares them with themselves), so the dimension-consistency step of
forward and backward never rejects an input container. -/
theorem dimension_consistency_check_is_vacuous
    (c s : GadgetronImagesVector) (h : 1 ≤ c.number) :
    c.check_dimension_consistency = true ∧
    CoilSensitivitiesVector.forward s c ≠ .error .inconsistentDims ∧
    CoilSensitivitiesVector.backward s c ≠ .error .inconsistentDims := by
  have hcheck := check_dimension_consistency_true c
  refine ⟨hcheck, ?_, ?_⟩
  · rw [CoilSensitivitiesVector.forward]
    by_cases h1 : c.number ≠ s.number
    · rw [if_pos h1]
      intro hcontra
      cases hcontra
    · rw [if_neg h1, if_neg (by simp [hcheck])]
      by_cases h2 : (c.get_image_dimensions 0).getD 3 0 ≠ 1
      · rw [if_pos h2]
        intro hcontra
        cases hcontra
      · rw [if_neg h2]
        rcases hloop : forwardLoop s 0 c.images with e | outs
        · simp only [Bind.bind, Except.bind, hloop]
          intro hcontra
          cases hcontra
          rcases forwardLoop_error _ _ _ _ hloop with h3 | h3 <;> cases h3
        · simp only [Bind.bind, Except.bind, hloop]
          intro hcontra
          cases hcontra
  · rw [CoilSensitivitiesVector.backward]
    by_cases h1 : c.number ≠ s.number
    · rw [if_pos h1]
      intro hcontra
      cases hcontra
    · rw [if_neg h1, if_neg (by simp [hcheck])]
      rcases hloop : backwardLoop s (c.get_image_dimensions 0) 0 c.images
        with e | outs
      · simp only [Bind.bind, Except.bind, hloop]
        intro hcontra
        cases hcontra
        rcases backwardLoop_error _ _ _ _ _ hloop with h3 | h3 | h3 <;>
          cases h3
      · simp only [Bind.bind, Except.bind, hloop]
        intro hcontra
        cases hcontra

theorem forwardLoop_ok (s : GadgetronImagesVector) (i : Nat)
    (l : List CFImage) (out : List CFImage)
    (h : forwardLoop s i l = .ok out) :
    out.length = l.length ∧
    ∀ j src, l[j]? = some src →
      ∃ cm, get_csm_as_cfimage s (KSpaceSubset.get_tag_from_img src) (i + j)
          = .ok cm ∧
        out[j]? = some (mkForwardImage src cm) := by
  induction l generalizing i out with
  | nil =>
    rw [forwardLoop] at h
    cases h
    exact ⟨rfl, by intro j src hj; simp at hj⟩
  | cons src0 rest ih =>
    rw [forwardLoop] at h
    obtain ⟨cm, hcsm, h2⟩ := bind_ok_elim h
    obtain ⟨outs, hrest, h3⟩ := bind_ok_elim h2
    cases h3
    obtain ⟨hlen, hall⟩ := ih _ _ hrest
    refine ⟨by simp [hlen], ?_⟩
    intro j src hj
    cases j with
    | zero =>
      simp only [List.getElem?_cons_zero, Option.some.injEq] at hj
      subst hj
      exact ⟨cm, by simpa using hcsm, by simp⟩
    | succ j =>
      simp only [List.getElem?_cons_succ] at hj
      obtain ⟨cm', hcsm', hout'⟩ := hall j src hj
      refine ⟨cm', ?_, by simpa using hout'⟩
      have : i + 1 + j = i + (j + 1) := by omega
      rwa [this] at hcsm'

theorem backwardLoop_ok (s : GadgetronImagesVector) (d : List Int) (i : Nat)
    (l : List CFImage) (out : List CFImage)
    (h : backwardLoop s d i l = .ok out) :
    out.length = l.length ∧
    ∀ j src, l[j]? = some src →
      ∃ cm, get_csm_as_cfimage s (KSpaceSubset.get_tag_from_img src) (i + j)
          = .ok cm ∧
        out[j]? = some (mkBackwardImage src cm) ∧
        d = [(cm.nx : Int), (cm.ny : Int), (cm.nz : Int), (cm.nc : Int)] := by
  induction l generalizing i out with
  | nil =>
    rw [backwardLoop] at h
    cases h
    exact ⟨rfl, by intro j src hj; simp at hj⟩
  | cons src0 rest ih =>
    rw [backwardLoop] at h
    obtain ⟨cm, hcsm, h2⟩ := bind_ok_elim h
    by_cases hdims : d = [(cm.nx : Int), (cm.ny : Int), (cm.nz : Int),
        (cm.nc : Int)]
    · rw [if_neg (by simpa using hdims)] at h2
      obtain ⟨outs, hrest, h3⟩ := bind_ok_elim h2
      cases h3
      obtain ⟨hlen, hall⟩ := ih _ _ hrest
      refine ⟨by simp [hlen], ?_⟩
      intro j src hj
      cases j with
      | zero =>
        simp only [List.getElem?_cons_zero, Option.some.injEq] at hj
        subst hj
        exact ⟨cm, by simpa using hcsm, by simp, hdims⟩
      | succ j =>
        simp only [List.getElem?_cons_succ] at hj
        obtain ⟨cm', hcsm', hout', hd'⟩ := hall j src hj
        refine ⟨cm', ?_, by simpa using hout', hd'⟩
        have : i + 1 + j = i + (j + 1) := by omega
        rwa [this] at hcsm'
    · rw [if_pos hdims] at h2
      cases h2

theorem encode2_lt {z ch nz nc : Nat} (hz : z < nz) (hc : ch < nc) :
    z + nz * ch < nz * nc := by
  have h1 : nz * (ch + 1) ≤ nz * nc := Nat.mul_le_mul_left nz hc
  calc z + nz * ch < nz + nz * ch := by omega
    _ = nz * (ch + 1) := by ring
    _ ≤ nz * nc := h1

theorem decode4_encode (nx ny nz nc x y z ch : Nat) (hx : x < nx)
    (hy : y < ny) (hz : z < nz) (hc : ch < nc) :
    decode4 nx ny nz (x + nx * (y + ny * (z + nz * ch))) = (x, y, z, ch) := by
  have hx0 : 0 < nx := by omega
  have hy0 : 0 < ny := by omega
  have hz0 : 0 < nz := by omega
  rw [decode4]
  have e1 : (x + nx * (y + ny * (z + nz * ch))) % nx = x := by
    rw [Nat.add_mul_mod_self_left, Nat.mod_eq_of_lt hx]
  have e2 : (x + nx * (y + ny * (z + nz * ch))) / nx
      = y + ny * (z + nz * ch) := by
    rw [Nat.add_mul_div_left _ _ hx0, Nat.div_eq_of_lt hx, Nat.zero_add]
  have e3 : (x + nx * (y + ny * (z + nz * ch))) / (nx * ny)
      = z + nz * ch := by
    rw [← Nat.div_div_eq_div_mul, e2, Nat.add_mul_div_left _ _ hy0,
      Nat.div_eq_of_lt hy, Nat.zero_add]
  have e4 : (x + nx * (y + ny * (z + nz * ch))) / (nx * ny * nz) = ch := by
    rw [← Nat.div_div_eq_div_mul, e3, Nat.add_mul_div_left _ _ hz0,
      Nat.div_eq_of_lt hz, Nat.zero_add]
  rw [e1, e2, e3, e4, Nat.add_mul_mod_self_left, Nat.mod_eq_of_lt hy,
    Nat.add_mul_mod_self_left, Nat.mod_eq_of_lt hz]

theorem encode4_lt (nx ny nz nc x y z ch : Nat) (hx : x < nx) (hy : y < ny)
    (hz : z < nz) (hc : ch < nc) :
    x + nx * (y + ny * (z + nz * ch)) < nx * ny * nz * nc := by
  have h1 : z + nz * ch < nz * nc := encode2_lt hz hc
  have h2 : y + ny * (z + nz * ch) < ny * (nz * nc) := encode2_lt hy h1
  have h3 : x + nx * (y + ny * (z + nz * ch)) < nx * (ny * (nz * nc)) :=
    encode2_lt hx h2
  calc x + nx * (y + ny * (z + nz * ch)) < nx * (ny * (nz * nc)) := h3
    _ = nx * ny * nz * nc := by ring

theorem mkForwardImage_at4 (src cm : CFImage) (x y z ch : Nat)
    (hx : x < src.nx) (hy : y < src.ny) (hz : z < src.nz) (hc : ch < cm.nc) :
    (mkForwardImage src cm).at4 x y z ch
      = CFloat.mul (src.at4 x y z 0) (cm.at4 x y z ch) := by
  rw [mkForwardImage, CFImage.at4]
  simp only [CFImage.nx, CFImage.ny, CFImage.nz, CFImage.nc] at *
  have hlt : x + src.head.matrix_size.1 *
      (y + src.head.matrix_size.2.1 *
        (z + src.head.matrix_size.2.2 * ch))
      < src.head.matrix_size.1 * src.head.matrix_size.2.1 *
        src.head.matrix_size.2.2 * cm.head.channels :=
    encode4_lt _ _ _ _ _ _ _ _ hx hy hz hc
  simp only [hlt, if_pos]
  rw [decode4_encode _ _ _ _ _ _ _ _ hx hy hz hc]
  simp only [CFImage.at4, CFImage.nx, CFImage.ny, CFImage.nz,
    Nat.mul_zero, Nat.add_zero]

theorem mkBackwardImage_at4 (src cm : CFImage)
    (hms : src.head.matrix_size = cm.head.matrix_size)
    (hch : src.head.channels = cm.head.channels)
    (x y z : Nat) (hx : x < cm.nx) (hy : y < cm.ny) (hz : z < cm.nz) :
    (mkBackwardImage src cm).at4 x y z 0
      = CFloat.sumUp
          (fun ch => CFloat.mul ((cm.at4 x y z ch).conj) (src.at4 x y z ch))
          cm.nc := by
  rw [mkBackwardImage, CFImage.at4]
  simp only [CFImage.nx, CFImage.ny, CFImage.nz, CFImage.nc] at *
  rw [hms]
  have hz0 : z + cm.head.matrix_size.2.2 * 0 = z := by ring
  rw [hz0]
  have hlt : x + cm.head.matrix_size.1 *
      (y + cm.head.matrix_size.2.1 * z)
      < cm.head.matrix_size.1 * cm.head.matrix_size.2.1 *
        cm.head.matrix_size.2.2 := by
    have := encode4_lt _ _ _ 1 _ _ _ 0 hx hy hz Nat.zero_lt_one
    calc x + cm.head.matrix_size.1 * (y + cm.head.matrix_size.2.1 * z)
        = x + cm.head.matrix_size.1 * (y + cm.head.matrix_size.2.1 *
            (z + cm.head.matrix_size.2.2 * 0)) := by ring
      _ < cm.head.matrix_size.1 * cm.head.matrix_size.2.1 *
            cm.head.matrix_size.2.2 * 1 := this
      _ = cm.head.matrix_size.1 * cm.head.matrix_size.2.1 *
            cm.head.matrix_size.2.2 := by ring
  simp only [hlt, if_pos]
  have hdec : decode4 cm.head.matrix_size.1 cm.head.matrix_size.2.1
      cm.head.matrix_size.2.2
      (x + cm.head.matrix_size.1 * (y + cm.head.matrix_size.2.1 * z))
      = (x, y, z, 0) := by
    have := decode4_encode _ _ _ 1 _ _ _ 0 hx hy hz Nat.zero_lt_one
    rw [show x + cm.head.matrix_size.1 * (y + cm.head.matrix_size.2.1 * z)
        = x + cm.head.matrix_size.1 * (y + cm.head.matrix_size.2.1 *
          (z + cm.head.matrix_size.2.2 * 0)) by ring]
    exact this
  rw [hdec]
  apply congrArg₂ _ _ rfl
  funext ch
  simp only [CFImage.at4, CFImage.nx, CFImage.ny, CFImage.nz]
  rw [hms]

/-- C8 (amended): backward produces, for each input image whose pixel
dimensions equal those of its matched sensitivity map, a single-channel
image whose voxel (x, y, z) is the channel sum of
conj(sensitivity) * channel value; the dimension validation compares the
first input image (not each image) with every matched map, so success
implies every matched map agrees with the dimensions of image 0. -/
theorem backward_coil_combination (s img out : GadgetronImagesVector)
    (h : CoilSensitivitiesVector.backward s img = .ok out) :
    out.images.length = img.images.length ∧
    (∀ j src, img.images[j]? = some src →
      ∃ cm, get_csm_as_cfimage s (KSpaceSubset.get_tag_from_img src) j
          = .ok cm ∧
        out.images[j]? = some (mkBackwardImage src cm) ∧
        img.get_image_dimensions 0
          = [(cm.nx : Int), (cm.ny : Int), (cm.nz : Int), (cm.nc : Int)]) ∧
    (∀ src cm, src.head.matrix_size = cm.head.matrix_size →
      src.head.channels = cm.head.channels →
      ∀ x y z, x < cm.nx → y < cm.ny → z < cm.nz →
        (mkBackwardImage src cm).at4 x y z 0
          = CFloat.sumUp
              (fun ch => CFloat.mul ((cm.at4 x y z ch).conj)
                (src.at4 x y z ch)) cm.nc) := by
  rw [CoilSensitivitiesVector.backward] at h
  by_cases h1 : img.number ≠ s.number
  · rw [if_pos h1] at h
    cases h
  · rw [if_neg h1, if_neg (by simp [check_dimension_consistency_true])] at h
    obtain ⟨l, hloop, h2⟩ := bind_ok_elim h
    cases h2
    obtain ⟨hlen, hall⟩ := backwardLoop_ok _ _ _ _ _ hloop
    refine ⟨hlen, ?_, ?_⟩
    · intro j src hj
      obtain ⟨cm, hcsm, hout, hd⟩ := hall j src hj
      exact ⟨cm, by simpa using hcsm, hout, hd⟩
    · intro src cm hms hch x y z hx hy hz
      exact mkBackwardImage_at4 src cm hms hch x y z hx hy hz

/-- C9 (amended): forward requires the number of stored maps to equal
the number of images (a count mismatch is an error, so fewer stored
maps are not reused cyclically across a larger image set); on success
every image is multiplied voxel-wise by the map found by the
index-offset wraparound search (matching the image slice tag against
maps with contrast tag 0). -/
theorem forward_coil_distribution (s combined out : GadgetronImagesVector) :
    (combined.number ≠ s.number →
      CoilSensitivitiesVector.forward s combined = .error .sizeMismatch) ∧
    (CoilSensitivitiesVector.forward s combined = .ok out →
      out.images.length = combined.images.length ∧
      ∀ j src, combined.images[j]? = some src →
        ∃ cm, get_csm_as_cfimage s (KSpaceSubset.get_tag_from_img src) j
            = .ok cm ∧
          out.images[j]? = some (mkForwardImage src cm)) ∧
    (∀ src cm x y z ch, x < src.nx → y < src.ny → z < src.nz → ch < cm.nc →
      (mkForwardImage src cm).at4 x y z ch
        = CFloat.mul (src.at4 x y z 0) (cm.at4 x y z ch)) := by
  refine ⟨?_, ?_, ?_⟩
  · intro h1
    rw [CoilSensitivitiesVector.forward, if_pos h1]
  · intro h
    rw [CoilSensitivitiesVector.forward] at h
    by_cases h1 : combined.number ≠ s.number
    · rw [if_pos h1] at h
      cases h
    · rw [if_neg h1,
        if_neg (by simp [check_dimension_consistency_true])] at h
      by_cases h2 : (combined.get_image_dimensions 0).getD 3 0 ≠ 1
      · rw [if_pos h2] at h
        cases h
      · rw [if_neg h2] at h
        obtain ⟨l, hloop, h3⟩ := bind_ok_elim h
        cases h3
        obtain ⟨hlen, hall⟩ := forwardLoop_ok _ _ _ _ hloop
        refine ⟨hlen, ?_⟩
        intro j src hj
        obtain ⟨cm, hcsm, hout⟩ := hall j src hj
        exact ⟨cm, by simpa using hcsm, hout⟩
  · intro src cm x y z ch hx hy hz hc
    exact mkForwardImage_at4 src cm x y z ch hx hy hz hc

/-- C1 witness at a concrete two-slice container. -/
theorem organise_kspace_partition_witness :
    c1input.acqs_info.encodings.length = 1 ∧
    c1input.organise_kspace = .ok c1organised ∧
    ((∀ s ∈ c1organised, s.idx_set ≠ []) ∧
     (∀ i, i < c1input.number →
       (c1organised.countP fun s => decide (i ∈ s.idx_set)) = 1) ∧
     (∀ s ∈ c1organised, ∀ i ∈ s.idx_set, i < c1input.number)) :=
  ⟨rfl, rfl, organise_kspace_partition c1input c1organised rfl rfl⟩

/-- C2: sort_by_time is not idempotent: on a container whose physical
order is opposite to the time-stamp order, one call leaves the identity
permutation (no sorting happens, because the time stamps are read
through the freshly zero-resized permutation index), while a second
call produces the time-ordered permutation, changing both the logical
ordering and the subset structure. -/
theorem sort_by_time_not_idempotent :
    Except.map AcquisitionsVector.index_ c2input.sort_by_time
      = .ok [0, 1] ∧
    Except.map AcquisitionsVector.index_
      (c2input.sort_by_time >>= AcquisitionsVector.sort_by_time)
      = .ok [1, 0] ∧
    (c2input.sort_by_time >>= AcquisitionsVector.get_kspace_order)
      = .ok [[0], [1]] ∧
    ((c2input.sort_by_time >>= AcquisitionsVector.sort_by_time)
      >>= AcquisitionsVector.get_kspace_order) = .ok [[1], [0]] ∧
    (c2input.sort_by_time >>= logical_time_stamps) = .ok [2, 1] ∧
    ((c2input.sort_by_time >>= AcquisitionsVector.sort_by_time)
      >>= logical_time_stamps) = .ok [1, 2] :=
  ⟨rfl, rfl, rfl, rfl, rfl, rfl⟩

/-- C3 witness at a concrete unsorted operand and empty destination. -/
theorem multiply_requires_sorted_witness :
    (c3x.sorted_ = false ∨ c3x.sorted_ = false) ∧
    c3dest.multiply c3x c3x = .error .unsortedOperands :=
  ⟨Or.inl rfl, multiply_requires_sorted c3dest c3x c3x (Or.inl rfl)⟩

/-- C4 witness at a concrete noise-threshold acquisition. -/
theorem get_acquisition_ignored_iff_witness :
    c4input.get_acquisition 0 = .ok (false, c4acq) ∧
    (false = !(TO_BE_IGNORED c4acq) ∧
     (false = false ↔
       (isFlagSet c4acq.flags ISMRMRD_ACQ_IS_PARALLEL_CALIBRATION = false ∧
        isFlagSet c4acq.flags
          ISMRMRD_ACQ_IS_PARALLEL_CALIBRATION_AND_IMAGING = false ∧
        isFlagSet c4acq.flags ISMRMRD_ACQ_LAST_IN_MEASUREMENT = false ∧
        isFlagSet c4acq.flags ISMRMRD_ACQ_IS_REVERSE = false ∧
        2 ^ (ISMRMRD_ACQ_IS_NOISE_MEASUREMENT - 1) ≤ c4acq.flags))) :=
  ⟨rfl, get_acquisition_ignored_iff c4input 0 false c4acq rfl⟩

/-- C5 witness at a concrete two-slice container. -/
theorem organise_kspace_row_major_witness :
    c5input.acqs_info.encodings
      = [⟨encLimitsSliceTwo, TrajectoryType.cartesian⟩] ∧
    c5input.organise_kspace = .ok c5organised ∧
    c5organised = organise_kspace_spec c5input
      (⟨encLimitsSliceTwo, TrajectoryType.cartesian⟩ :
        Encoding).encodingLimits :=
  ⟨rfl, rfl,
   organise_kspace_row_major c5input _ c5organised rfl rfl⟩

/-- C6 counterexample: the second image of c6input has a read direction
that fails the unit-length check, yet set_up_geom_info derives and sets
a geometry descriptor, because only the first image is checked for unit
length. -/
theorem set_up_geom_info_skips_unit_check_cex :
    c6input.images[1]? = some c6img1 ∧
    is_unit_vector c6img1.head.read_dir = false ∧
    set_up_geom_info c6input = .ok (some c6geom) := by
  have hu1 : is_unit_vector (⟨1, 0, 0⟩ : Vec3) = true := by
    simp [is_unit_vector]
  have hu2 : is_unit_vector (⟨0, 1, 0⟩ : Vec3) = true := by
    simp [is_unit_vector]
  have hu3 : is_unit_vector (⟨0, 0, 1⟩ : Vec3) = true := by
    simp [is_unit_vector]
  have hux : is_unit_vector (⟨1 + 1 / 12500, 0, 0⟩ : Vec3) = false := by
    simp [is_unit_vector]
    rw [abs_of_nonneg (by norm_num)]
    norm_num
  have hvx : are_vectors_equal ⟨1, 0, 0⟩ ⟨1 + 1 / 12500, 0, 0⟩ = true := by
    simp [are_vectors_equal]
    rw [abs_of_nonneg (by norm_num)]
    norm_num
  have hvy : are_vectors_equal ⟨0, 1, 0⟩ ⟨0, 1, 0⟩ = true := by
    simp [are_vectors_equal]
  have hvz : are_vectors_equal ⟨0, 0, 1⟩ ⟨0, 0, 1⟩ = true := by
    simp [are_vectors_equal]
  refine ⟨rfl, hux, ?_⟩
  rw [set_up_geom_info]
  simp only [c6input, c6img0, c6img1, mkTestHdr, GadgetronImagesVector.number,
    List.length_cons, List.length_nil, sortedImages, if_true, dirCheckLoop,
    hu1, hu2, hu3, hvx, hvy, hvz, Bool.and_self, Bool.and_true, Bool.true_and,
    not_true_eq_false, if_false, Nat.lt_irrefl, mkGeomInfo, c6geom]
  norm_num [VoxelisedGeometricalInfo3D.mk.injEq, Vec3.mk.injEq, Prod.ext_iff]

/-- C6 witness at a concrete container whose first image fails the unit
check. -/
theorem set_up_geom_info_validation_witness :
    1 ≤ c6winput.number ∧
    (sortedImages c6winput).head? = some c6wimg ∧
    (is_unit_vector c6wimg.head.read_dir &&
     is_unit_vector c6wimg.head.phase_dir &&
     is_unit_vector c6wimg.head.slice_dir) = false ∧
    set_up_geom_info c6winput = .ok none := by
  have h2 : is_unit_vector (⟨2, 0, 0⟩ : Vec3) = false := by
    simp [is_unit_vector]
    rw [abs_of_nonneg (by norm_num)]
    norm_num
  have hu : (is_unit_vector c6wimg.head.read_dir &&
      is_unit_vector c6wimg.head.phase_dir &&
      is_unit_vector c6wimg.head.slice_dir) = false := by
    simp only [c6wimg, mkTestHdr]
    simp [h2]
  exact ⟨by decide, rfl, hu,
    set_up_geom_info_validation c6winput c6wimg (by decide) rfl
      (Or.inl hu)⟩

/-- C7 witness at a concrete Cartesian container with one
calibration-flagged acquisition. -/
theorem extract_calibration_flagged_or_whole_witness :
    c7ad.get_trajectory_type = .ok .cartesian ∧
    c7ad.clone = .ok c7clone ∧
    c7ad.get_flagged_acquisitions_index calibration_flags = .ok [0] ∧
    (([0] = ([] : List Nat) →
      extract_calibration_data c7ad = .ok c7clone ∧
      pickLoop c7ad (List.range c7ad.number) = .ok c7clone.acqs ∧
      c7clone.sorted_ = c7ad.sorted_) ∧
    (∀ l, [0] ≠ ([] : List Nat) → pickLoop c7ad [0] = .ok l →
      extract_calibration_data c7ad
        = AcquisitionsVector.sort_by_time
            { acqs_info := c7ad.acqs_info, acqs := l, index_ := [],
              sorting_ := c7clone.sorting_, sorted_ := c7clone.sorted_ } ∧
      ∀ r, extract_calibration_data c7ad = .ok r →
        r.acqs = l ∧ r.sorted_ = true)) :=
  ⟨rfl, rfl, rfl,
   extract_calibration_flagged_or_whole c7ad c7clone [0] rfl rfl rfl⟩

/-- C8 counterexample: the second input image has pixel dimensions that
differ from its matched sensitivity map, yet backward computes a result
without raising an error, because the per-image check compares the
dimensions of image 0 (not of image i) with each matched map. -/
theorem backward_dims_check_first_image_cex :
    get_csm_as_cfimage c8cexS
      (KSpaceSubset.get_tag_from_img (mkTestImage 2 1)) 1 = .ok c8cexMap1 ∧
    c8cexImgs.images[1]? = some (mkTestImage 2 1) ∧
    c8cexImgs.get_image_dimensions 1
      ≠ [(c8cexMap1.nx : Int), (c8cexMap1.ny : Int), (c8cexMap1.nz : Int),
         (c8cexMap1.nc : Int)] ∧
    (CoilSensitivitiesVector.backward c8cexS c8cexImgs).isOk = true :=
  ⟨rfl, rfl, by decide, rfl⟩

/-- C8 witness at a concrete single-voxel map and image. -/
theorem backward_coil_combination_witness :
    CoilSensitivitiesVector.backward c8wS c8wImgs = .ok c8wOut ∧
    (c8wOut.images.length = c8wImgs.images.length ∧
     (∀ j src, c8wImgs.images[j]? = some src →
       ∃ cm, get_csm_as_cfimage c8wS (KSpaceSubset.get_tag_from_img src) j
           = .ok cm ∧
         c8wOut.images[j]? = some (mkBackwardImage src cm) ∧
         c8wImgs.get_image_dimensions 0
           = [(cm.nx : Int), (cm.ny : Int), (cm.nz : Int), (cm.nc : Int)]) ∧
     (∀ src cm, src.head.matrix_size = cm.head.matrix_size →
       src.head.channels = cm.head.channels →
       ∀ x y z, x < cm.nx → y < cm.ny → z < cm.nz →
         (mkBackwardImage src cm).at4 x y z 0
           = CFloat.sumUp
               (fun ch => CFloat.mul ((cm.at4 x y z ch).conj)
                 (src.at4 x y z ch)) cm.nc)) :=
  ⟨rfl, backward_coil_combination c8wS c8wImgs c8wOut rfl⟩

/-- C9 counterexample: with one stored map and two images to process,
forward raises the size-mismatch error instead of reusing the stored
map cyclically. -/
theorem forward_rejects_fewer_maps_cex :
    c9cexS.images.length = 1 ∧ c9cexImgs.images.length = 2 ∧
    CoilSensitivitiesVector.forward c9cexS c9cexImgs
      = .error .sizeMismatch :=
  ⟨rfl, rfl, rfl⟩

/-- C9 witness at a concrete map/image count mismatch. -/
theorem forward_coil_distribution_witness :
    c9wImgs.number ≠ c9wS.number ∧
    CoilSensitivitiesVector.forward c9wS c9wImgs = .error .sizeMismatch :=
  ⟨by decide,
   (forward_coil_distribution c9wS c9wImgs ⟨[], false⟩).1 (by decide)⟩

/-- C10 witness at a concrete container with inconsistent image
dimensions. -/
theorem dimension_consistency_check_is_vacuous_witness :
    1 ≤ c10input.number ∧
    (c10input.check_dimension_consistency = true ∧
     CoilSensitivitiesVector.forward c10maps c10input
       ≠ .error .inconsistentDims ∧
     CoilSensitivitiesVector.backward c10maps c10input
       ≠ .error .inconsistentDims) :=
  ⟨by decide,
   dimension_consistency_check_is_vacuous c10input c10maps (by decide)⟩
